import Mathlib

/-!
Verification development for the RustRaptor trading backend
(strategy execution plane).  Each Rust source function that a claim
touches is shallowly embedded as a Lean definition keeping the source
name where possible; machine floats (f64) are idealised as real or
rational numbers, byte buffers as lists of naturals, and the stateful
strategy loops as explicit step functions over their state records.
-/

set_option maxRecDepth 10000

namespace RustRaptor

/-! ## services/blowfin/auth.rs — request signing

`sign_rest` and `sign_ws` are HMAC-SHA-256 over the prehash
`path || method || timestamp || nonce || body`, base64 encoded.
SHA-256, HMAC and base64 are implemented here bit-faithfully over
natural numbers (bytes are naturals below 256, words below 2^32). -/

namespace Auth

/-- Truncate to a 32-bit word, as all SHA-256 word arithmetic does. -/
def w32 (x : Nat) : Nat := x % 4294967296

/-- 32-bit right rotation. -/
def rotr (n x : Nat) : Nat := (x >>> n) ||| ((x <<< (32 - n)) % 4294967296)

def bigS0 (x : Nat) : Nat := rotr 2 x ^^^ rotr 13 x ^^^ rotr 22 x

def bigS1 (x : Nat) : Nat := rotr 6 x ^^^ rotr 11 x ^^^ rotr 25 x

def smallS0 (x : Nat) : Nat := rotr 7 x ^^^ rotr 18 x ^^^ (x >>> 3)

def smallS1 (x : Nat) : Nat := rotr 17 x ^^^ rotr 19 x ^^^ (x >>> 10)

def ch (x y z : Nat) : Nat := (x &&& y) ^^^ ((x ^^^ 4294967295) &&& z)

def maj (x y z : Nat) : Nat := (x &&& y) ^^^ (x &&& z) ^^^ (y &&& z)

/-- The 64 SHA-256 round constants. -/
def K : List Nat :=
  [1116352408, 1899447441, 3049323471, 3921009573, 961987163,
   1508970993, 2453635748, 2870763221, 3624381080, 310598401,
   607225278, 1426881987, 1925078388, 2162078206, 2614888103,
   3248222580, 3835390401, 4022224774, 264347078, 604807628,
   770255983, 1249150122, 1555081692, 1996064986, 2554220882,
   2821834349, 2952996808, 3210313671, 3336571891, 3584528711,
   113926993, 338241895, 666307205, 773529912, 1294757372,
   1396182291, 1695183700, 1986661051, 2177026350, 2456956037,
   2730485921, 2820302411, 3259730800, 3345764771, 3516065817,
   3600352804, 4094571909, 275423344, 430227734, 506948616,
   659060556, 883997877, 958139571, 1322822218, 1537002063,
   1747873779, 1955562222, 2024104815, 2227730452, 2361852424,
   2428436474, 2756734187, 3204031479, 3329325298]

/-- SHA-256 initial hash value. -/
def H0 : List Nat :=
  [1779033703, 3144134277, 1013904242, 2773480762,
   1359893119, 2600822924, 528734635, 1541459225]

/-- Merkle–Damgård padding: append 0x80, zeros to 56 mod 64, then the
bit length as 8 big-endian bytes. -/
def padMsg (msg : List Nat) : List Nat :=
  let L := msg.length
  let z := (119 - L % 64) % 64
  let bits := 8 * L
  msg ++ 0x80 :: List.replicate z 0 ++
    [(bits >>> 56) &&& 255, (bits >>> 48) &&& 255, (bits >>> 40) &&& 255,
     (bits >>> 32) &&& 255, (bits >>> 24) &&& 255, (bits >>> 16) &&& 255,
     (bits >>> 8) &&& 255, bits &&& 255]

/-- Big-endian bytes to 32-bit words. -/
def toWords : List Nat → List Nat
  | a :: b :: c :: d :: rest =>
      (a * 16777216 + b * 65536 + c * 256 + d) :: toWords rest
  | _ => []

/-- Message-schedule extension: `acc` holds the words most recent first;
each step prepends `sigma1 w2 + w7 + sigma0 w15 + w16` (mod 2^32). -/
def extendSched : Nat → List Nat → List Nat
  | 0, acc => acc.reverse
  | n + 1, acc =>
      extendSched n
        (w32 (smallS1 (acc.getD 1 0) + acc.getD 6 0 +
              smallS0 (acc.getD 14 0) + acc.getD 15 0) :: acc)

/-- Full 64-word schedule of one 16-word block. -/
def schedule (block : List Nat) : List Nat := extendSched 48 block.reverse

/-- One SHA-256 round on working variables `[a,b,c,d,e,f,g,h]`. -/
def round (st : List Nat) (kw : Nat × Nat) : List Nat :=
  match st with
  | [a, b, c, d, e, f, g, h] =>
      let t1 := w32 (h + bigS1 e + ch e f g + kw.1 + kw.2)
      let t2 := w32 (bigS0 a + maj a b c)
      [w32 (t1 + t2), a, b, c, w32 (d + t1), e, f, g]
  | other => other

/-- Compression of a single 16-word block into the running hash. -/
def compress (h : List Nat) (block : List Nat) : List Nat :=
  let final := (K.zip (schedule block)).foldl round h
  List.zipWith (fun x y => w32 (x + y)) h final

/-- Iterate the compression over the padded word stream, 16 words at a
time (the stream length is always a multiple of 16). -/
def compressAll (h : List Nat) : List Nat → List Nat
  | w0 :: w1 :: w2 :: w3 :: w4 :: w5 :: w6 :: w7 ::
    w8 :: w9 :: w10 :: w11 :: w12 :: w13 :: w14 :: w15 :: rest =>
      compressAll
        (compress h [w0, w1, w2, w3, w4, w5, w6, w7,
                     w8, w9, w10, w11, w12, w13, w14, w15]) rest
  | _ => h

/-- A 32-bit word as 4 big-endian bytes. -/
def wordBytes (w : Nat) : List Nat :=
  [(w >>> 24) &&& 255, (w >>> 16) &&& 255, (w >>> 8) &&& 255, w &&& 255]

/-- SHA-256 of a byte list, as the 32 digest bytes. -/
def sha256 (msg : List Nat) : List Nat :=
  ((compressAll H0 (toWords (padMsg msg))).map wordBytes).flatten

/-- HMAC-SHA-256 (RFC 2104) with a 64-byte block size. -/
def hmacSha256 (key msg : List Nat) : List Nat :=
  let k0 := if 64 < key.length then sha256 key else key
  let k := k0 ++ List.replicate (64 - k0.length) 0
  sha256 (k.map (fun b => b ^^^ 0x5c) ++ sha256 (k.map (fun b => b ^^^ 0x36) ++ msg))

/-- Standard base64 alphabet. -/
def base64Table : List Char :=
  "ABCDEFGHIJKLMNOPQRSTUVWXYZabcdefghijklmnopqrstuvwxyz0123456789+/".data

def b64c (n : Nat) : Char := base64Table.getD n 'A'

/-- Standard base64 with `=` padding (the `general_purpose::STANDARD`
engine used by the source). -/
def base64Encode : List Nat → List Char
  | a :: b :: c :: rest =>
      b64c (a >>> 2) :: b64c (((a &&& 3) <<< 4) ||| (b >>> 4)) ::
      b64c (((b &&& 15) <<< 2) ||| (c >>> 6)) :: b64c (c &&& 63) ::
      base64Encode rest
  | [a, b] =>
      [b64c (a >>> 2), b64c (((a &&& 3) <<< 4) ||| (b >>> 4)),
       b64c ((b &&& 15) <<< 2), '=']
  | [a] => [b64c (a >>> 2), b64c ((a &&& 3) <<< 4), '=', '=']
  | [] => []

/-- UTF-8 bytes of a string; all strings signed by the source are ASCII,
for which the bytes are the code points. -/
def strBytes (s : String) : List Nat := s.data.map Char.toNat

/-- `sign_rest` from auth.rs: base64 HMAC-SHA-256 of the prehash
`path || method || timestamp || nonce || body` under `secret`. -/
def sign_rest (secret method path timestamp nonce body : String) : String :=
  let prehash := path ++ method ++ timestamp ++ nonce ++ body
  String.mk (base64Encode (hmacSha256 (strBytes secret) (strBytes prehash)))

/-- `sign_ws` from auth.rs: base64 HMAC-SHA-256 of
`"/users/self/verify" || "GET" || timestamp || nonce` under `secret`. -/
def sign_ws (secret timestamp nonce : String) : String :=
  let path := "/users/self/verify"
  let method := "GET"
  let prehash := path ++ method ++ timestamp ++ nonce
  String.mk (base64Encode (hmacSha256 (strBytes secret) (strBytes prehash)))

end Auth

/-! ## utils/errors.rs — the error variants the embedded services use -/

inductive TradeError where
  | RiskViolation (msg : String)
  | Db
  | Api
  | MissingKey
deriving DecidableEq

/-! ## services/scheduler.rs — the reconciling scheduler

`reconcile` reads all enabled rows, spawns a task for every row whose id
is not yet in the `TASKS` table (the `match` on the strategy kind runs
INSIDE the spawned task body, so the abort handle is inserted for every
enabled row, registered kind or not), then aborts and removes every
handle whose id has no enabled row.  The `DashMap` is modelled as an
association list keyed by strategy id; the value records what the
spawned task body does. -/

namespace Scheduler

/-- The columns of `StrategyRow` that `reconcile` consults (uuid ids are
modelled as naturals; `params` is not read by the scheduler itself). -/
structure StrategyRow where
  strategy_id : Nat
  user_id : Int
  exchange : String
  symbol : String
  strategy : String
deriving DecidableEq

/-- What the spawned task body does, following the `match r.strategy`
inside the spawned closure: run a registered strategy loop, or only log
`scheduler: unknown strategy` and exit. -/
inductive TaskAction where
  | meanReversion
  | trendFollow
  | vcsr
  | warnUnknown (kind : String)
deriving DecidableEq

def spawnedAction (row : StrategyRow) : TaskAction :=
  match row.strategy with
  | "mean_reversion" => .meanReversion
  | "trend_follow" => .trendFollow
  | "vcsr" => .vcsr
  | other => .warnUnknown other

/-- The `TASKS` table: strategy id to the abort handle of its task. -/
abbrev TaskMap := List (Nat × TaskAction)

def keys (m : TaskMap) : List Nat := m.map Prod.fst

/-- `TASKS.contains_key(&row.strategy_id)`. -/
def contains_key (m : TaskMap) (id : Nat) : Bool := m.any (fun e => e.1 == id)

/-- Phase 2 of `reconcile`: for every enabled row absent from the table,
spawn its task and insert the abort handle (unconditionally on `kind`). -/
def spawnMissing (tasks : TaskMap) (rows : List StrategyRow) : TaskMap :=
  rows.foldl
    (fun m row =>
      if contains_key m row.strategy_id then m
      else m ++ [(row.strategy_id, spawnedAction row)])
    tasks

/-- Phase 3 of `reconcile`: abort and remove every handle whose id has
no enabled row. -/
def reap (tasks : TaskMap) (rows : List StrategyRow) : TaskMap :=
  tasks.filter (fun e => rows.any (fun r => r.strategy_id == e.1))

/-- One full `reconcile` pass given the enabled rows read in step 1. -/
def reconcile (tasks : TaskMap) (rows : List StrategyRow) : TaskMap :=
  reap (spawnMissing tasks rows) rows

end Scheduler

/-! ## services/risk.rs — slippage and drawdown guards

f64 PnL amounts are idealised as rationals; the `dd:{user}` cache rows
are the literal strings the code parses.  The numeric string parsers
below cover the sign and fixed-point decimal forms (the only forms
`record_fill` ever writes); Rust additionally accepts exponent and
inf/nan spellings for f64, which no cache entry uses. -/

namespace Risk

def MAX_DD_PCT : ℚ := 20

def LOOKBACK_SECS : Int := 86400

/-- Digit run to a natural, `none` on a non-digit (helper). -/
def digitsValAux (acc : Nat) : List Char → Option Nat
  | [] => some acc
  | c :: r => if c.isDigit then digitsValAux (acc * 10 + (c.toNat - 48)) r else none

/-- A non-empty all-digit run to a natural. -/
def digitsVal (l : List Char) : Option Nat :=
  if l.isEmpty then none else digitsValAux 0 l

/-- `str::parse::<i64>`: optional sign, digits, and the i64 range check. -/
def parseI64 (s : String) : Option Int :=
  match s.data with
  | '+' :: rest =>
      (digitsVal rest).bind fun m =>
        if m ≤ 9223372036854775807 then some (m : Int) else none
  | '-' :: rest =>
      (digitsVal rest).bind fun m =>
        if m ≤ 9223372036854775808 then some (-(m : Int)) else none
  | l =>
      (digitsVal l).bind fun m =>
        if m ≤ 9223372036854775807 then some (m : Int) else none

/-- Unsigned decimal (`123`, `123.`, `.5`, `1.25`) to an exact
rational: integer part plus fraction part over `10 ^ digits`, built as
one exact fraction. -/
def parseDec (l : List Char) : Option ℚ :=
  let ip := l.takeWhile (fun c => c != '.')
  let rest := l.drop ip.length
  match rest with
  | [] => (digitsVal ip).map fun n => mkRat n 1
  | '.' :: fp =>
      if (ip.all Char.isDigit && fp.all Char.isDigit) &&
         (!ip.isEmpty || !fp.isEmpty) then
        some (mkRat ((digitsValAux 0 ip).getD 0 * 10 ^ fp.length +
                     (digitsValAux 0 fp).getD 0) (10 ^ fp.length))
      else none
  | _ => none

/-- `str::parse::<f64>` on the decimal forms, idealised as exact ℚ. -/
def parseF64 (s : String) : Option ℚ :=
  match s.data with
  | '+' :: r => parseDec r
  | '-' :: r => (parseDec r).map Neg.neg
  | r => parseDec r

/-- One `"{ts}|{pnl}"` cache row parsed as the filter-map closure in
`check_drawdown` does: `split('|')`, i64 timestamp from the first
piece, f64 PnL from the second (`it.next()?` yields `none` when the
row has no `|`, and later pieces are never read). -/
def parseEntry (s : String) : Option (Int × ℚ) :=
  let l := s.data
  let tsPart := l.takeWhile fun c => c != '|'
  if tsPart.length = l.length then none
  else
    let rest := l.drop (tsPart.length + 1)
    let pnlPart := rest.takeWhile fun c => c != '|'
    (parseI64 (String.mk tsPart)).bind fun t =>
      (parseF64 (String.mk pnlPart)).map fun p => (t, p)

/-- `check_drawdown` given the rows read from the `dd:{user}` list and
the current unix timestamp: sums the parseable entries at or after the
cutoff and errors when the sum is below minus `MAX_DD_PCT`. -/
def check_drawdown (now : Int) (rows : List String) : Except TradeError Unit :=
  let cutoff := now - LOOKBACK_SECS
  let dd : ℚ :=
    (rows.filterMap fun s =>
      (parseEntry s).bind fun tp =>
        if cutoff ≤ tp.1 then some tp.2 else none).sum
  if dd < 0 ∧ MAX_DD_PCT < -dd then .error (.RiskViolation "draw-down")
  else .ok ()

/-- `check_slippage`: hard fail when the estimate exceeds 10.0 bps
(`MAX_SLIPPAGE_BPS`).  Slippage estimates are idealised as reals. -/
noncomputable def check_slippage (estimated_bps : ℝ) : Except TradeError Unit :=
  if 10 < estimated_bps then .error (.RiskViolation "slippage") else .ok ()

/-- Spec-side 24-hour sum (spec §8): every parseable entry whose
timestamp is at least `now − 86400` contributes its PnL; entries older
than the window and unparseable entries contribute nothing. -/
def recentSum (now : Int) (rows : List String) : ℚ :=
  (rows.map fun s =>
    match parseEntry s with
    | some tp => if now - 86400 ≤ tp.1 then tp.2 else 0
    | none => 0).sum

end Risk

/-! ## services/trading_engine.rs — the canonical place-order pipeline

`execute_trade_with` is generic over the `RiskGuard` and `ApiClient`
seams exactly as in the source; the production wrapper instantiates the
risk guard with `risk::check_slippage`.  Rust renders prices and sizes
to decimal strings when building `OrderRequest`; that value-preserving
formatting step is elided and the numbers carried as reals.  The opaque
JSON payload of a response is carried as a string. -/

namespace TradingEngine

inductive Exchange where
  | Blowfin
deriving DecidableEq

structure TradeRequest where
  exchange : Exchange
  symbol : String
  side : String
  order_type : String
  price : Option ℝ
  size : ℝ

structure OrderRequest where
  inst_id : String
  margin_mode : String
  side : String
  order_type : String
  price : Option ℝ
  size : ℝ

structure ApiResponse where
  code : String
  data : String

structure TradeResponse where
  success : Bool
  exchange : Exchange
  symbol : String
  side : String
  order_type : String
  price : Option ℝ
  size : ℝ
  data : String

/-- `execute_trade_with` from trading_engine.rs: slippage check with the
hard-coded `0.0` estimate, then build the order, call the API, and shape
the canonical response (`success = (code == "0")`). -/
def execute_trade_with (req : TradeRequest)
    (riskCheck : ℝ → Except TradeError Unit)
    (api : OrderRequest → Except TradeError ApiResponse) :
    Except TradeError TradeResponse :=
  match riskCheck 0 with
  | .error e => .error e
  | .ok _ =>
      let order_req : OrderRequest :=
        ⟨req.symbol, "isolated", req.side, req.order_type, req.price, req.size⟩
      match api order_req with
      | .error e => .error e
      | .ok api_resp =>
          .ok ⟨api_resp.code == "0", req.exchange, req.symbol, req.side,
               req.order_type, req.price, req.size, api_resp.data⟩

end TradingEngine

/-! ## services/crypto.rs — envelope encryption

`EnvelopeCrypto::seal` draws a fresh data key and nonce, AEAD-encrypts
the plaintext under them, and wraps the data key with a sealed box
against the master key; `open` unwraps, decrypts, and converts the
plaintext bytes to a UTF-8 string.  The AES-256-GCM and libsodium
sealed-box primitives live in external crates; they are modelled as
scheme parameters carrying the correctness and authenticity contracts
those constructions provide (symbolic model: a modified wrapped key,
nonce, or ciphertext is rejected).  Wrapped keys, nonces and
ciphertexts are bit strings so that single-bit tampering is expressible;
plaintext is the byte list handed to `seal`.  `String::from_utf8` is
the UTF-8 well-formedness check `utf8Valid` below, with the decoded
string carried as its byte list (a Rust `String` is exactly its UTF-8
bytes). -/

namespace Crypto

/-- Flip bit `i` of a bit string (identity past the end). -/
def flipBit (i : Nat) (l : List Bool) : List Bool := l.set i (!(l.getD i false))

/-- An AEAD cipher (AES-256-GCM in the source): deterministic in key,
nonce and plaintext. -/
structure AeadScheme (Key : Type) where
  enc : Key → List Bool → List Nat → List Bool
  dec : Key → List Bool → List Bool → Option (List Nat)

/-- A sealed-box wrap of a data key against the master key pair
(libsodium `sealedbox` in the source); `r` is the ephemeral randomness
the construction draws. -/
structure SealedBoxScheme (Key : Type) where
  wrap : Nat → Key → List Bool
  unwrap : List Bool → Option Key

/-- UTF-8 well-formedness of a byte list — the acceptance condition of
`String::from_utf8` (RFC 3629 table: no surrogates, no overlongs, max
U+10FFFF). -/
def utf8Valid : List Nat → Bool
  | [] => true
  | b :: r =>
    if b < 0x80 then utf8Valid r
    else if 0xC2 ≤ b ∧ b ≤ 0xDF then
      match r with
      | c1 :: r1 => (0x80 ≤ c1 ∧ c1 ≤ 0xBF) ∧ utf8Valid r1 = true
      | [] => false
    else if b = 0xE0 then
      match r with
      | c1 :: c2 :: r2 =>
          ((0xA0 ≤ c1 ∧ c1 ≤ 0xBF) ∧ (0x80 ≤ c2 ∧ c2 ≤ 0xBF)) ∧ utf8Valid r2 = true
      | _ => false
    else if (0xE1 ≤ b ∧ b ≤ 0xEC) ∨ b = 0xEE ∨ b = 0xEF then
      match r with
      | c1 :: c2 :: r2 =>
          ((0x80 ≤ c1 ∧ c1 ≤ 0xBF) ∧ (0x80 ≤ c2 ∧ c2 ≤ 0xBF)) ∧ utf8Valid r2 = true
      | _ => false
    else if b = 0xED then
      match r with
      | c1 :: c2 :: r2 =>
          ((0x80 ≤ c1 ∧ c1 ≤ 0x9F) ∧ (0x80 ≤ c2 ∧ c2 ≤ 0xBF)) ∧ utf8Valid r2 = true
      | _ => false
    else if b = 0xF0 then
      match r with
      | c1 :: c2 :: c3 :: r3 =>
          ((0x90 ≤ c1 ∧ c1 ≤ 0xBF) ∧ (0x80 ≤ c2 ∧ c2 ≤ 0xBF) ∧
           (0x80 ≤ c3 ∧ c3 ≤ 0xBF)) ∧ utf8Valid r3 = true
      | _ => false
    else if 0xF1 ≤ b ∧ b ≤ 0xF3 then
      match r with
      | c1 :: c2 :: c3 :: r3 =>
          ((0x80 ≤ c1 ∧ c1 ≤ 0xBF) ∧ (0x80 ≤ c2 ∧ c2 ≤ 0xBF) ∧
           (0x80 ≤ c3 ∧ c3 ≤ 0xBF)) ∧ utf8Valid r3 = true
      | _ => false
    else if b = 0xF4 then
      match r with
      | c1 :: c2 :: c3 :: r3 =>
          ((0x80 ≤ c1 ∧ c1 ≤ 0x8F) ∧ (0x80 ≤ c2 ∧ c2 ≤ 0xBF) ∧
           (0x80 ≤ c3 ∧ c3 ≤ 0xBF)) ∧ utf8Valid r3 = true
      | _ => false
    else false

/-- `EnvelopeCrypto::seal` given the randomness the OS RNG drew: a
fresh data key `dk`, a fresh `nonce`, and the ephemeral sealed-box
randomness `r`; returns `(wrapped_data_key, nonce, ciphertext)`. -/
def seal' {Key : Type} (box : SealedBoxScheme Key) (ae : AeadScheme Key)
    (r : Nat) (dk : Key) (nonce : List Bool) (plaintext : List Nat) :
    List Bool × List Bool × List Bool :=
  (box.wrap r dk, nonce, ae.enc dk nonce plaintext)

/-- `EnvelopeCrypto::open` (named `open'`: `open` is a Lean keyword):
unwrap the data key, AEAD-decrypt, then the `String::from_utf8` step. -/
def open' {Key : Type} (box : SealedBoxScheme Key) (ae : AeadScheme Key)
    (wrapped nonce cipher : List Bool) : Except String (List Nat) :=
  match box.unwrap wrapped with
  | none => .error "sealed-box unwrap failed"
  | some data_key =>
      match ae.dec data_key nonce cipher with
      | none => .error "AES-GCM decrypt failed"
      | some plaintext =>
          if utf8Valid plaintext then .ok plaintext
          else .error "invalid utf-8"

/-! ### Executable instances of the scheme contracts

Witness schemes with perfect authenticity, used to instantiate the
scheme hypotheses of the envelope theorem on concrete inputs.  A value
is encoded injectively as a bit string followed by a parity bit, so any
single-bit flip is rejected. -/

/-- Parity (xor) of a bit string. -/
def xorAll (l : List Bool) : Bool := l.foldr xor false

/-- Self-delimiting encoding of a bit string: each bit escaped as
`[true, b]`, terminated by `false`. -/
def bitsEnc (n : List Bool) : List Bool :=
  (n.map fun b => [true, b]).flatten ++ [false]

def parseBits : List Bool → Option (List Bool × List Bool)
  | false :: r => some ([], r)
  | true :: b :: r => (parseBits r).map fun x => (b :: x.1, x.2)
  | _ => none

/-- Unary encoding of bytes: each byte `m` as `m` ones and a zero. -/
def bytesEnc (p : List Nat) : List Bool :=
  (p.map fun m => List.replicate m true ++ [false]).flatten

def parseUnary : List Bool → Option (Nat × List Bool)
  | [] => none
  | false :: r => some (0, r)
  | true :: r => (parseUnary r).map fun x => (x.1 + 1, x.2)

def parseBytes : Nat → List Bool → Option (List Nat)
  | _, [] => some []
  | 0, _ :: _ => none
  | f + 1, l =>
      (parseUnary l).bind fun x =>
        (parseBytes f x.2).map fun p => x.1 :: p

/-- Witness AEAD: ciphertext is the encoded nonce and plaintext plus a
parity bit; decryption re-checks the parity and the nonce. -/
def toyAe : AeadScheme Nat where
  enc := fun _ n p =>
    let body := bitsEnc n ++ bytesEnc p
    body ++ [xorAll body]
  dec := fun _ n2 c =>
    match c.getLast? with
    | none => none
    | some tag =>
        let body := c.dropLast
        if tag == xorAll body then
          (parseBits body).bind fun x =>
            if x.1 == n2 then parseBytes x.2.length x.2 else none
        else none

/-- Witness sealed box over natural-number data keys: the key in unary
plus a parity bit. -/
def toyBox : SealedBoxScheme Nat where
  wrap := fun _ dk => List.replicate dk true ++ [decide (dk % 2 = 1)]
  unwrap := fun w =>
    match w.getLast? with
    | none => none
    | some tag =>
        let body := w.dropLast
        if body.all (fun b => b) && (tag == decide (body.length % 2 = 1)) then
          some body.length
        else none

end Crypto

/-! ## services/strategies/common.rs — shared market types

`chrono::DateTime<Utc>` timestamps are modelled as unix seconds;
`.hour()` and `.date_naive()` become the derived projections below.
The `open` field is `open'` (`open` is a Lean keyword). -/

structure Candle where
  ts : Nat
  open' : ℝ
  high : ℝ
  low : ℝ
  close : ℝ
  volume : ℝ
  delta : Option ℝ

/-- UTC hour of a unix-seconds timestamp (`DateTime::hour`). -/
def hourOf (ts : Nat) : Nat := ts / 3600 % 24

/-- UTC day index of a unix-seconds timestamp (`DateTime::date_naive`). -/
def dateOf (ts : Nat) : Nat := ts / 86400

structure OrderBookSnapshot where
  bid_depth : ℝ
  ask_depth : ℝ

/-- Rust `str::to_uppercase` on the ASCII symbols the code compares. -/
def toUppercase (s : String) : String := String.mk (s.data.map Char.toUpper)

/-! ## services/strategies/mean_reversion.rs

The Bollinger maths (`bollinger`, `decide`) and the candle loop
(`loop_forever_core`).  The loop is a step function on the task's
rolling history; the drawdown gate inside `trade_core` is the `ddOk`
parameter (it injects the `RiskChecker` seam), and the `trade_exec`
delegate is modelled by returning the trade requests the step hands to
it.  The `redis.set_json` warm-cache write has no bearing on state or
trades and is elided. -/

namespace MeanReversion

structure MeanRevParams where
  symbol : String
  period : Nat
  sigma : ℝ
  qty : ℝ

/-- `bollinger`: SMA and population standard deviation over the last
`n` closes; bands at `sma ± k·sd`.  `none` when fewer than `n` closes. -/
noncomputable def bollinger (c : List Candle) (n : Nat) (k : ℝ) :
    Option (ℝ × ℝ) :=
  if c.length < n then none
  else
    let slice := c.drop (c.length - n)
    let sma := (slice.map Candle.close).sum / n
    let sd := Real.sqrt (((slice.map fun x => (x.close - sma) ^ 2).sum) / n)
    some (sma - k * sd, sma + k * sd)

inductive Sig where
  | Buy
  | Sell
  | Hold
deriving DecidableEq

/-- `decide`: Buy below the lower band, Sell above the upper band,
otherwise Hold (`candles.last().unwrap()`; the bands exist only when
the history is long enough, which for a positive period also makes the
history non-empty — the 0 default is the unreachable panic branch). -/
noncomputable def decide (candles : List Candle) (cfg : MeanRevParams) : Sig :=
  match bollinger candles cfg.period cfg.sigma with
  | some lh =>
      let p := ((candles.getLast?).map Candle.close).getD 0
      if p < lh.1 then .Buy else if lh.2 < p then .Sell else .Hold
  | none => .Hold

/-- `TradeRequest` built by `trade_core`. -/
def mkReq (cfg : MeanRevParams) (side : String) : TradingEngine.TradeRequest :=
  ⟨.Blowfin, cfg.symbol, side, "market", none, cfg.qty⟩

structure MRState where
  hist : List Candle

/-- One iteration of the `loop_forever_core` receive loop: symbol gate,
history push, minimum-length gate, then decide and (risk permitting)
trade.  Returns the new state and the requests handed to `trade_exec`. -/
noncomputable def mrStep (cfg : MeanRevParams) (ddOk : Bool)
    (s : MRState) (c : Candle) : MRState × List TradingEngine.TradeRequest :=
  if toUppercase cfg.symbol ≠ "BTCUSDT" then (s, [])
  else
    let hist := s.hist ++ [c]
    if hist.length < cfg.period then (⟨hist⟩, [])
    else
      let trades :=
        match decide hist cfg with
        | .Hold => []
        | .Buy => if ddOk then [mkReq cfg "buy"] else []
        | .Sell => if ddOk then [mkReq cfg "sell"] else []
      (⟨hist⟩, trades)

/-- The receive loop over a finite candle sequence, accumulating the
emitted trade requests. -/
noncomputable def runMR (cfg : MeanRevParams) (ddOk : Bool)
    (s : MRState) (cs : List Candle) :
    MRState × List TradingEngine.TradeRequest :=
  cs.foldl
    (fun acc c =>
      let r := mrStep cfg ddOk acc.1 c
      (r.1, acc.2 ++ r.2))
    (s, [])

end MeanReversion

/-! ## services/strategies/trend_follow.rs

Daily aggregation plus SMA/Donchian evaluation (`loop_core` and
`evaluate_core`).  The Redis position flag is single-writer per user
(spec §5), so it is carried in the task state; `ddOk` injects the
`RiskChecker` seam as above. -/

namespace TrendFollow

structure TrendParams where
  symbol : String
  fast : Nat
  slow : Nat
  don : Nat
  qty : ℝ

/-- `f64::MIN`, the fold seed for the Donchian high. -/
noncomputable def f64MIN : ℝ := -(2 ^ 1024 - 2 ^ 971)

/-- `f64::MAX`, the fold seed for the Donchian low. -/
noncomputable def f64MAX : ℝ := 2 ^ 1024 - 2 ^ 971

def mkReq (cfg : TrendParams) (side : String) : TradingEngine.TradeRequest :=
  ⟨.Blowfin, cfg.symbol, side, "market", none, cfg.qty⟩

/-- `evaluate_core` on the daily buffer: returns the updated position
flag and the requests handed to `trade_exec`. -/
noncomputable def evaluate_core (d : List Candle) (cfg : TrendParams)
    (ddOk : Bool) (in_pos : Bool) :
    Bool × List TradingEngine.TradeRequest :=
  if d.length < cfg.slow then (in_pos, [])
  else
    let closes := d.map Candle.close
    let highs := d.map Candle.high
    let lows := d.map Candle.low
    let fast := ((closes.drop (closes.length - cfg.fast)).sum) / cfg.fast
    let slow := ((closes.drop (closes.length - cfg.slow)).sum) / cfg.slow
    let don_h := (highs.reverse.take cfg.don).foldl max f64MIN
    let don_l := (lows.reverse.take cfg.don).foldl min f64MAX
    let price := (closes.getLast?).getD 0
    if in_pos ∧ price ≤ don_l then
      ((false), if ddOk then [mkReq cfg "sell"] else [])
    else if (¬ in_pos) ∧ fast > slow ∧ price ≥ don_h then
      ((true), if ddOk then [mkReq cfg "buy"] else [])
    else (in_pos, [])

structure TFState where
  agg : Option Candle
  daily_buf : List Candle
  in_pos : Bool

/-- Merging one 1h candle into the daily aggregate
(`high=max, low=min, close=last, volume+=`). -/
def mergeAgg (d c : Candle) : Candle :=
  ⟨d.ts, d.open', max d.high c.high, min d.low c.low, c.close,
   d.volume + c.volume, d.delta⟩

/-- One iteration of the `loop_core` receive loop: symbol gate, daily
aggregation, and on an hour-0 candle finalize the day into the buffer
(capped at `slow + 10` by dropping the front) and evaluate. -/
noncomputable def tfStep (cfg : TrendParams) (ddOk : Bool)
    (s : TFState) (c : Candle) : TFState × List TradingEngine.TradeRequest :=
  if toUppercase cfg.symbol ≠ "BTCUSDT" then (s, [])
  else
    let agg2 :=
      match s.agg with
      | none => c
      | some d => mergeAgg d c
    if hourOf c.ts = 0 then
      let daily1 := s.daily_buf ++ [agg2]
      let daily2 := if cfg.slow + 10 < daily1.length then daily1.tail else daily1
      let ev := evaluate_core daily2 cfg ddOk s.in_pos
      (⟨none, daily2, ev.1⟩, ev.2)
    else (⟨some agg2, s.daily_buf, s.in_pos⟩, [])

/-- The receive loop over a finite candle sequence. -/
noncomputable def runTF (cfg : TrendParams) (ddOk : Bool)
    (s : TFState) (cs : List Candle) :
    TFState × List TradingEngine.TradeRequest :=
  cs.foldl
    (fun acc c =>
      let r := tfStep cfg ddOk acc.1 c
      (r.1, acc.2 ++ r.2))
    (s, [])

end TrendFollow

/-! ## services/strategies/vcsr.rs

The volume-climax support-reversal engine.  `statrs`' `Data::std_dev`
is the sample standard deviation (n−1 denominator, `none` below two
samples).  The early-return chain of `generate_signal` is written as a
guard per source `if`-block (`sessionOk`, `vwapOk`, `obOk` are the pass
conditions of the corresponding early returns). -/

namespace Vcsr

inductive TradingSession where
  | AsiaOpen
  | NyOpen
deriving DecidableEq, BEq

structure VcsrConfig where
  vol_ma_period : Nat
  vol_ma_mult : ℝ
  vol_zscore : ℝ
  vol_percentile : ℝ
  hvn_lookback_days : Nat
  hvn_top_value_area_pct : ℝ
  atr_mult : ℝ
  risk_per_trade : ℝ
  rr_ratio : ℝ
  vwap_sigma : Option ℝ
  ob_bid_ask_ratio : Option ℝ
  session_filter : Option (List TradingSession)
  vwap_window : Nat

structure DemandZone where
  price : ℝ
  width : ℝ

structure TradeSignal where
  entry : ℝ
  stop : ℝ
  target : ℝ
  size : ℝ

/-- `map_session`: hours 0–2 and 23 are Asia, 12–14 NY, and every other
hour falls to the catch-all `_ => AsiaOpen` arm. -/
def map_session (ts : Nat) : TradingSession :=
  let h := hourOf ts
  if h ≤ 2 ∨ h = 23 then .AsiaOpen
  else if 12 ≤ h ∧ h ≤ 14 then .NyOpen
  else .AsiaOpen

/-- `map_hvns` accumulation: volume-descending buckets are taken while
the running share of total volume stays within `pct`; each taken bucket
is a zone of width `0.2%` around its midprice. -/
noncomputable def hvnAccum (tot pct : ℝ) : ℝ → List (ℝ × ℝ) → List DemandZone
  | _, [] => []
  | acc, pv :: rest =>
      let acc2 := acc + pv.2
      if acc2 / tot ≤ pct then
        ⟨pv.1, pv.1 * 0.002⟩ :: hvnAccum tot pct acc2 rest
      else []

/-- `map_hvns` over the daily candles (stable volume-descending sort,
as Rust's `sort_by`). -/
noncomputable def map_hvns (daily : List Candle) (pct : ℝ) : List DemandZone :=
  let vols := daily.map fun c => ((c.high + c.low) * 0.5, c.volume)
  let sorted := vols.insertionSort fun a b => b.2 ≤ a.2
  let tot := (vols.map Prod.snd).sum
  hvnAccum tot pct 0 sorted

structure Vwap where
  mean : ℝ
  std_dev : ℝ

/-- `statrs` sample standard deviation (`Data::std_dev`). -/
noncomputable def sampleStdDev (l : List ℝ) : Option ℝ :=
  if l.length < 2 then none
  else
    some (Real.sqrt
      (((l.map fun x => (x - l.sum / l.length) ^ 2).sum) / (l.length - 1)))

/-- `intraday_vwap` over the last `win` candles. -/
noncomputable def intraday_vwap (hist : List Candle) (win : Nat) : Option Vwap :=
  if hist.length < win then none
  else
    let slice := hist.drop (hist.length - win)
    let pv := (slice.map fun c => c.close * c.volume).sum
    let vol := (slice.map Candle.volume).sum
    let prices := slice.map Candle.close
    let m := pv / max vol (1 / 100000000)
    match sampleStdDev prices with
    | none => none
    | some sd => some ⟨m, sd⟩

/-- `volume_spike`: MA multiple, z-score against the sample deviation
(`unwrap_or(1e-9)`), and percentile rank on the ascending sort.  The
source unwraps `recent.last()`; its call site guarantees non-emptiness
and the `none` arm is the unreachable panic branch. -/
noncomputable def volume_spike (recent : List Candle) (cfg : VcsrConfig) : Bool :=
  match recent.getLast? with
  | none => false
  | some latest =>
      let vols := recent.map Candle.volume
      let ma := vols.sum / vols.length
      if latest.volume < cfg.vol_ma_mult * ma then false
      else
        let mean := if vols.length = 0 then 0 else vols.sum / vols.length
        let std := (sampleStdDev vols).getD (1 / 1000000000)
        if (latest.volume - mean) / std < cfg.vol_zscore then false
        else
          let sorted := vols.insertionSort fun a b => a ≤ b
          let idx := (sorted.findIdx? fun v => decide (latest.volume ≤ v)).getD vols.length
          decide (cfg.vol_percentile ≤ (idx : ℝ) / (vols.length : ℝ))

/-- `is_reversal_candle`: hammer (lower wick over twice the body) or
bullish engulfing against the previous candle. -/
noncomputable def is_reversal_candle (c : Candle) (prev : Option Candle) : Bool :=
  let body := |c.close - c.open'|
  let hammer := decide (body * 2 < min c.open' c.close - c.low)
  let engulf :=
    match prev with
    | some p => decide (p.open' < c.close ∧ c.open' < p.close)
    | none => false
  hammer || engulf

/-- `delta_flip`: previous delta negative and current positive. -/
noncomputable def delta_flip (prev : Option Candle) (curr : Candle) : Bool :=
  match prev with
  | some pc =>
      match curr.delta, pc.delta with
      | some ld, some pd => decide (0 < ld ∧ pd < 0)
      | _, _ => false
  | none => false

/-- `average_true_range` over the last `n` adjacent pairs. -/
noncomputable def average_true_range (hist : List Candle) (n : Nat) : Option ℝ :=
  if hist.length ≤ n then none
  else
    let pairs := (hist.zip hist.tail).reverse.take n
    let trs := pairs.map fun w =>
      max (w.2.high - w.2.low) (max |w.2.high - w.1.close| |w.2.low - w.1.close|)
    some (trs.sum / n)

structure VcsrStrategy where
  cfg : VcsrConfig
  hvn_cache : List DemandZone

/-- Pass condition of the session early return (gate 2). -/
def sessionOk (cfg : VcsrConfig) (ts : Nat) : Bool :=
  match cfg.session_filter with
  | some sessions => sessions.contains (map_session ts)
  | none => true

/-- Pass condition of the VWAP early return (gate 3): rejects when the
latest close sits above `mean − σ·std`. -/
noncomputable def vwapOk (cfg : VcsrConfig) (hist : List Candle)
    (latest : Candle) : Bool :=
  match cfg.vwap_sigma with
  | some sig =>
      match intraday_vwap hist cfg.vwap_window with
      | some v => decide (latest.close ≤ v.mean - sig * v.std_dev)
      | none => true
  | none => true

/-- Pass condition of the book-imbalance early return (gate 6). -/
noncomputable def obOk (cfg : VcsrConfig) (ob : Option OrderBookSnapshot) : Bool :=
  match ob, cfg.ob_bid_ask_ratio with
  | some o, some r => decide (r ≤ o.bid_depth / o.ask_depth)
  | _, _ => true

/-- `VcsrStrategy::generate_signal`: the six gates in source order, then
ATR stop, size and target.  `prev` is `hist.get(len.wrapping_sub(2))`:
present only when the history has at least two candles. -/
noncomputable def generate_signal (s : VcsrStrategy) (hist : List Candle)
    (order_book : Option OrderBookSnapshot) (equity : ℝ) :
    Option TradeSignal :=
  match hist.getLast? with
  | none => none
  | some latest =>
      let prev := if 2 ≤ hist.length then hist[hist.length - 2]? else none
      match s.hvn_cache.find? fun z =>
          decide (latest.low ≤ z.price ∧ z.price ≤ latest.high) with
      | none => none
      | some zone =>
          if sessionOk s.cfg latest.ts then
            if vwapOk s.cfg hist latest then
              if volume_spike (hist.drop (hist.length - s.cfg.vol_ma_period)) s.cfg then
                if is_reversal_candle latest prev || delta_flip prev latest then
                  if obOk s.cfg order_book then
                    match average_true_range hist 14 with
                    | none => none
                    | some atr =>
                        let stop := min (latest.close - s.cfg.atr_mult * atr)
                                        (zone.price - zone.width)
                        let risk := latest.close - stop
                        let size := equity * s.cfg.risk_per_trade / risk
                        let target := latest.close + s.cfg.rr_ratio * risk
                        some ⟨latest.close, stop, target, size⟩
                  else none
                else none
              else none
            else none
          else none

structure VcsrLoopState where
  daily : List Candle
  hist4h : List Candle
  cache : List DemandZone

/-- One iteration of the vcsr `loop_forever` receive loop: daily HVN
sample (one candle per UTC day, capped at `hvn_lookback_days`), the
4-hour history push, the warm-up gate, then signal generation.  The
drawdown gate and `execute_trade` call that consume the produced signal
follow the signal and do not affect the loop state. -/
noncomputable def vcsrStep (cfg : VcsrConfig) (s : VcsrLoopState) (c : Candle) :
    VcsrLoopState × Option TradeSignal :=
  let dc :=
    if ((s.daily.getLast?).map fun d => dateOf d.ts) ≠ some (dateOf c.ts) then
      let d1 := s.daily ++ [c]
      let d2 := if cfg.hvn_lookback_days < d1.length then d1.tail else d1
      (d2, map_hvns d2 cfg.hvn_top_value_area_pct)
    else (s.daily, s.cache)
  let hist2 := s.hist4h ++ [c]
  if hist2.length < cfg.vol_ma_period + 5 then (⟨dc.1, hist2, dc.2⟩, none)
  else (⟨dc.1, hist2, dc.2⟩, generate_signal ⟨cfg, dc.2⟩ hist2 none 100000)

/-- The receive loop over a finite candle sequence (signals ignored). -/
noncomputable def runVcsr (cfg : VcsrConfig) (s : VcsrLoopState)
    (cs : List Candle) : VcsrLoopState :=
  cs.foldl (fun st c => (vcsrStep cfg st c).1) s

/-! ### Concrete fixture for the session-gate analysis: a configuration
whose session filter is `[AsiaOpen]` and whose other optional gates are
absent (degenerate volume thresholds keep the volume gate passing), and
a 16-candle history whose candles all carry UTC hour 5 (ts 18000),
with a volume spike and a hammer shape on the latest candle. -/

noncomputable def hour5Cfg : VcsrConfig :=
  ⟨4, 0, 0, 0, 180, 7/10, 1, 1/100, 2, none, none, some [.AsiaOpen], 390⟩

def hour5Base : Candle := ⟨18000, 10, 11, 9, 10, 100, none⟩

def hour5Spike : Candle := ⟨18000, 10, 11, 9, 10, 1000, none⟩

def hour5Hist : List Candle :=
  [hour5Base, hour5Base, hour5Base, hour5Base, hour5Base,
   hour5Base, hour5Base, hour5Base, hour5Base, hour5Base,
   hour5Base, hour5Base, hour5Base, hour5Base, hour5Base,
   hour5Spike]

noncomputable def hour5Strategy : VcsrStrategy :=
  ⟨hour5Cfg, [⟨10, 1/50⟩]⟩

end Vcsr

/-! # Theorems -/

/-! ## C1 — signature reference vectors -/

/-- C1: REST and WebSocket signing are deterministic functions of their
arguments (they are pure functions of exactly `(secret, method, path,
timestamp, nonce, body)`), and on the fixed reference inputs
`secret="mysecret"`, `method="POST"`, `path="/api/v1/order"`,
`ts="1690000000000"`, `nonce="nonce123"`, `body={"foo":1}` the REST
signature is exactly `Jg5/kwP/ixremCZCe9Wzb8e0jA/FXxjJsFxEUJVrsx0=` and
the WS signature with the same secret, timestamp and nonce is exactly
`XhySSqNux/AAnb1u41Alg7M1l0Aoc/ltBbJl08AAjJg=`. -/
theorem sign_reference_vectors :
    Auth.sign_rest "mysecret" "POST" "/api/v1/order" "1690000000000"
      "nonce123" "\x7b\"foo\":1\x7d" =
      "Jg5/kwP/ixremCZCe9Wzb8e0jA/FXxjJsFxEUJVrsx0=" ∧
    Auth.sign_ws "mysecret" "1690000000000" "nonce123" =
      "XhySSqNux/AAnb1u41Alg7M1l0Aoc/ltBbJl08AAjJg=" := by
  constructor <;> decide

/-! ## C2 / C3 — scheduler reconciliation -/

theorem contains_key_iff (m : Scheduler.TaskMap) (id : Nat) :
    Scheduler.contains_key m id = true ↔ id ∈ Scheduler.keys m := by
  constructor
  · intro h
    rcases List.any_eq_true.mp h with ⟨e, he, hb⟩
    exact List.mem_map.mpr ⟨e, he, beq_iff_eq.mp hb⟩
  · intro h
    rcases List.mem_map.mp h with ⟨e, he, hf⟩
    exact List.any_eq_true.mpr ⟨e, he, beq_iff_eq.mpr hf⟩

theorem spawnMissing_cons (tasks : Scheduler.TaskMap)
    (r : Scheduler.StrategyRow) (rs : List Scheduler.StrategyRow) :
    Scheduler.spawnMissing tasks (r :: rs) =
      Scheduler.spawnMissing
        (if Scheduler.contains_key tasks r.strategy_id then tasks
         else tasks ++ [(r.strategy_id, Scheduler.spawnedAction r)]) rs := by
  simp [Scheduler.spawnMissing]

theorem keys_spawnMissing_mem (rows : List Scheduler.StrategyRow)
    (tasks : Scheduler.TaskMap) (id : Nat) :
    id ∈ Scheduler.keys (Scheduler.spawnMissing tasks rows) ↔
      id ∈ Scheduler.keys tasks ∨
        id ∈ rows.map Scheduler.StrategyRow.strategy_id := by
  induction rows generalizing tasks with
  | nil => simp [Scheduler.spawnMissing]
  | cons r rs ih =>
      rw [spawnMissing_cons]
      by_cases hc : Scheduler.contains_key tasks r.strategy_id = true
      · rw [if_pos hc, ih]
        have hr : r.strategy_id ∈ Scheduler.keys tasks :=
          (contains_key_iff tasks r.strategy_id).mp hc
        simp only [List.map_cons, List.mem_cons]
        constructor
        · rintro (h | h)
          · exact Or.inl h
          · exact Or.inr (Or.inr h)
        · rintro (h | h | h)
          · exact Or.inl h
          · exact Or.inl (h ▸ hr)
          · exact Or.inr h
      · rw [if_neg hc, ih]
        have hkeys : Scheduler.keys
            (tasks ++ [(r.strategy_id, Scheduler.spawnedAction r)]) =
            Scheduler.keys tasks ++ [r.strategy_id] := by
          simp [Scheduler.keys]
        rw [hkeys]
        simp only [List.mem_append, List.mem_singleton, List.map_cons,
          List.mem_cons]
        tauto

theorem keys_spawnMissing_nodup (rows : List Scheduler.StrategyRow)
    (tasks : Scheduler.TaskMap)
    (h : (Scheduler.keys tasks).Nodup) :
    (Scheduler.keys (Scheduler.spawnMissing tasks rows)).Nodup := by
  induction rows generalizing tasks with
  | nil => simpa [Scheduler.spawnMissing] using h
  | cons r rs ih =>
      rw [spawnMissing_cons]
      by_cases hc : Scheduler.contains_key tasks r.strategy_id = true
      · rw [if_pos hc]; exact ih _ h
      · rw [if_neg hc]
        apply ih
        have hnin : r.strategy_id ∉ Scheduler.keys tasks := by
          intro hmem
          exact hc ((contains_key_iff tasks r.strategy_id).mpr hmem)
        simp only [Scheduler.keys, List.map_append, List.map_cons, List.map_nil]
        rw [List.nodup_append]
        refine ⟨h, List.nodup_singleton _, ?_⟩
        intro a ha hb
        simp only [List.mem_singleton] at hb
        exact hnin (hb ▸ ha)

theorem keys_reap (m : Scheduler.TaskMap) (rows : List Scheduler.StrategyRow) :
    Scheduler.keys (Scheduler.reap m rows) =
      (Scheduler.keys m).filter
        (fun id => rows.any fun r => r.strategy_id == id) := by
  induction m with
  | nil => rfl
  | cons e t ih =>
      by_cases hp : (rows.any fun r => r.strategy_id == e.1) = true
      · simpa [Scheduler.reap, Scheduler.keys, List.filter_cons, hp] using ih
      · simp only [Bool.not_eq_true] at hp
        simpa [Scheduler.reap, Scheduler.keys, List.filter_cons, hp] using ih

theorem any_sid_iff (rows : List Scheduler.StrategyRow) (id : Nat) :
    (rows.any fun r => r.strategy_id == id) = true ↔
      id ∈ rows.map Scheduler.StrategyRow.strategy_id := by
  simp only [List.any_eq_true, beq_iff_eq, List.mem_map]

/-- C2: one reconcile pass makes the key set of the task-handle table
exactly the set of enabled strategy ids (missing tasks started, orphans
aborted and removed), and the table never holds two handles for the
same strategy id. -/
theorem reconcile_converges (tasks : Scheduler.TaskMap)
    (rows : List Scheduler.StrategyRow)
    (hnd : (Scheduler.keys tasks).Nodup) :
    (∀ id, id ∈ Scheduler.keys (Scheduler.reconcile tasks rows) ↔
        id ∈ rows.map Scheduler.StrategyRow.strategy_id) ∧
    (Scheduler.keys (Scheduler.reconcile tasks rows)).Nodup := by
  constructor
  · intro id
    rw [Scheduler.reconcile, keys_reap, List.mem_filter,
      keys_spawnMissing_mem, any_sid_iff]
    constructor
    · rintro ⟨_, h⟩; exact h
    · intro h; exact ⟨Or.inr h, h⟩
  · rw [Scheduler.reconcile, keys_reap]
    exact (keys_spawnMissing_nodup rows tasks hnd).filter _

/-- C2 witness: a concrete pass from a table holding a stale handle for
id 5 to the enabled set `{7}`. -/
theorem reconcile_converges_witness :
    (Scheduler.keys [(5, Scheduler.TaskAction.meanReversion)]).Nodup ∧
    (7 ∈ Scheduler.keys (Scheduler.reconcile
        [(5, Scheduler.TaskAction.meanReversion)]
        [⟨7, 1, "blowfin", "BTCUSDT", "vcsr"⟩]) ↔
      7 ∈ ([⟨7, 1, "blowfin", "BTCUSDT", "vcsr"⟩] :
            List Scheduler.StrategyRow).map Scheduler.StrategyRow.strategy_id) ∧
    (Scheduler.keys (Scheduler.reconcile
        [(5, Scheduler.TaskAction.meanReversion)]
        [⟨7, 1, "blowfin", "BTCUSDT", "vcsr"⟩])).Nodup :=
  ⟨by decide,
   (reconcile_converges _ _ (by decide)).1 7,
   (reconcile_converges _ _ (by decide)).2⟩

/-- C3 counterexample: an enabled row with the unregistered kind
`"quantum_leap"` DOES get an abort handle recorded under its id — the
kind `match` runs inside the spawned task body, after
`TASKS.insert(row.strategy_id, abort)` has happened unconditionally.
The claim says no handle is recorded for such a row. -/
theorem reconcile_unknown_kind_records_handle :
    Scheduler.reconcile []
        [(⟨7, 1, "blowfin", "BTCUSDT", "quantum_leap"⟩ :
          Scheduler.StrategyRow)] =
      [(7, Scheduler.TaskAction.warnUnknown "quantum_leap")] := by
  decide

theorem spawnMissing_fixed (rows : List Scheduler.StrategyRow)
    (m : Scheduler.TaskMap)
    (h : ∀ r ∈ rows, Scheduler.contains_key m r.strategy_id = true) :
    Scheduler.spawnMissing m rows = m := by
  induction rows with
  | nil => rfl
  | cons r rs ih =>
      rw [spawnMissing_cons, if_pos (h r (List.mem_cons_self r rs))]
      exact ih fun x hx => h x (List.mem_cons_of_mem r hx)

theorem reconcile_idem (tasks : Scheduler.TaskMap)
    (rows : List Scheduler.StrategyRow) :
    Scheduler.reconcile (Scheduler.reconcile tasks rows) rows =
      Scheduler.reconcile tasks rows := by
  have hall : ∀ e ∈ Scheduler.reconcile tasks rows,
      (rows.any fun r => r.strategy_id == e.1) = true := by
    intro e he
    rw [Scheduler.reconcile, Scheduler.reap] at he
    exact (List.mem_filter.mp he).2
  have hkeys : ∀ r ∈ rows,
      Scheduler.contains_key (Scheduler.reconcile tasks rows) r.strategy_id = true := by
    intro r hr
    apply (contains_key_iff _ _).mpr
    rw [Scheduler.reconcile, keys_reap, List.mem_filter]
    refine ⟨?_, (any_sid_iff rows r.strategy_id).mpr ?_⟩
    · rw [keys_spawnMissing_mem]
      exact Or.inr (List.mem_map_of_mem _ hr)
    · exact List.mem_map_of_mem _ hr
  conv_lhs => rw [Scheduler.reconcile, spawnMissing_fixed rows _ hkeys]
  exact List.filter_eq_self.mpr hall

/-- C3 (amended): an enabled row with an unregistered kind is logged and
no strategy loop runs (its task body is the warn-and-exit action), but
an abort handle IS recorded under its id; the retries on subsequent
ticks are harmless no-ops because the id is already present — a second
pass over the same rows leaves the table unchanged. -/
theorem reconcile_unknown_kind_skipped (tasks : Scheduler.TaskMap)
    (rows : List Scheduler.StrategyRow) (row : Scheduler.StrategyRow)
    (hmem : row ∈ rows)
    (hk : row.strategy ≠ "mean_reversion" ∧ row.strategy ≠ "trend_follow" ∧
          row.strategy ≠ "vcsr") :
    Scheduler.spawnedAction row = .warnUnknown row.strategy ∧
    row.strategy_id ∈ Scheduler.keys (Scheduler.reconcile tasks rows) ∧
    Scheduler.reconcile (Scheduler.reconcile tasks rows) rows =
      Scheduler.reconcile tasks rows := by
  refine ⟨?_, ?_, reconcile_idem tasks rows⟩
  · unfold Scheduler.spawnedAction
    split
    · exact absurd (by assumption) hk.1
    · exact absurd (by assumption) hk.2.1
    · exact absurd (by assumption) hk.2.2
    · rfl
  · rw [Scheduler.reconcile, keys_reap, List.mem_filter]
    refine ⟨?_, (any_sid_iff rows row.strategy_id).mpr
      (List.mem_map_of_mem _ hmem)⟩
    rw [keys_spawnMissing_mem]
    exact Or.inr (List.mem_map_of_mem _ hmem)

/-! ## C5 — drawdown check -/

theorem dd_sum_eq (now : Int) (rows : List String) :
    (rows.filterMap fun s =>
      (Risk.parseEntry s).bind fun tp =>
        if now - Risk.LOOKBACK_SECS ≤ tp.1 then some tp.2 else none).sum =
      Risk.recentSum now rows := by
  induction rows with
  | nil => rfl
  | cons s t ih =>
      rw [List.filterMap_cons]
      cases hp : Risk.parseEntry s with
      | none => simpa [Risk.recentSum, hp] using ih
      | some tp =>
          by_cases hcut : now - Risk.LOOKBACK_SECS ≤ tp.1
          · simp only [Option.some_bind, if_pos hcut, List.sum_cons, ih]
            simp only [Risk.recentSum, List.map_cons, List.sum_cons, hp]
            rw [if_pos (show now - 86400 ≤ tp.1 by
              simpa [Risk.LOOKBACK_SECS] using hcut)]
          · simp only [Option.some_bind, if_neg hcut, ih]
            simp only [Risk.recentSum, List.map_cons, List.sum_cons, hp]
            rw [if_neg (show ¬ now - 86400 ≤ tp.1 by
              simpa [Risk.LOOKBACK_SECS] using hcut)]
            ring

theorem check_drawdown_eq (now : Int) (rows : List String) :
    Risk.check_drawdown now rows =
      (if Risk.recentSum now rows < 0 ∧ 20 < -Risk.recentSum now rows then
        .error (.RiskViolation "draw-down") else .ok ()) := by
  simp only [Risk.check_drawdown, Risk.MAX_DD_PCT]
  rw [dd_sum_eq]

/-- C5: `check_drawdown` returns a `RiskViolation` exactly when the sum
of the parseable `"{ts}|{pnl}"` entries whose timestamp is at least
`now − 86400` is negative with magnitude strictly over 20; entries
older than the window and unparseable entries change nothing. -/
theorem check_drawdown_spec (now : Int) (rows : List String) :
    (Risk.check_drawdown now rows = .ok () ↔
      ¬ Risk.recentSum now rows < -20) ∧
    (∀ s, Risk.parseEntry s = none →
      Risk.check_drawdown now (s :: rows) = Risk.check_drawdown now rows) ∧
    (∀ s t p, Risk.parseEntry s = some (t, p) → t < now - 86400 →
      Risk.check_drawdown now (s :: rows) = Risk.check_drawdown now rows) := by
  refine ⟨?_, ?_, ?_⟩
  · rw [check_drawdown_eq]
    split_ifs with h
    · simp only [reduceCtorEq, false_iff, not_not]
      linarith [h.1, h.2]
    · simp only [true_iff]
      intro hc
      exact h ⟨by linarith, by linarith⟩
  · intro s hp
    rw [check_drawdown_eq, check_drawdown_eq]
    have : Risk.recentSum now (s :: rows) = Risk.recentSum now rows := by
      simp [Risk.recentSum, hp]
    rw [this]
  · intro s t p hp hold
    rw [check_drawdown_eq, check_drawdown_eq]
    have : Risk.recentSum now (s :: rows) = Risk.recentSum now rows := by
      simp only [Risk.recentSum, List.map_cons, List.sum_cons, hp]
      rw [if_neg (by omega)]
      ring_nf
    rw [this]

/-- C5 witness: a fresh −25 entry trips the guard; a `"bad|row"` entry
and an aged −5 entry change nothing. -/
theorem check_drawdown_spec_witness :
    (¬ Risk.check_drawdown 1000000 ["913600|-25.00000000"] = .ok ()) ∧
    Risk.check_drawdown 1000000 ("bad|row" :: ["913600|-25.00000000"]) =
      Risk.check_drawdown 1000000 ["913600|-25.00000000"] ∧
    Risk.check_drawdown 1000000 ("913599|-5.00000000" :: []) =
      Risk.check_drawdown 1000000 [] :=
  ⟨fun h => ((check_drawdown_spec 1000000 ["913600|-25.00000000"]).1.mp h)
      (by with_unfolding_all decide),
   (check_drawdown_spec 1000000 ["913600|-25.00000000"]).2.1 "bad|row"
      (by decide),
   (check_drawdown_spec 1000000 []).2.2 "913599|-5.00000000" 913599 (-5)
      (by decide) (by decide)⟩

/-! ## C9 — slippage check hard-coded to 0.0 bps -/

/-- C9: the engine calls the slippage check with the hard-coded 0.0
estimate; the production guard fails only above 10.0 bps, so the
risk-violation branch of the pipeline is unreachable — the pipeline
with the production guard behaves exactly as with a guard that always
passes, for every request and API outcome. -/
theorem execute_trade_slippage_unreachable :
    Risk.check_slippage 0 = .ok () ∧
    (∀ bps : ℝ, Risk.check_slippage bps = .ok () ↔ ¬ 10 < bps) ∧
    (∀ (req : TradingEngine.TradeRequest)
       (api : TradingEngine.OrderRequest → Except TradeError TradingEngine.ApiResponse),
       TradingEngine.execute_trade_with req Risk.check_slippage api =
         TradingEngine.execute_trade_with req (fun _ => .ok ()) api) := by
  have h0 : Risk.check_slippage 0 = .ok () := by
    unfold Risk.check_slippage
    rw [if_neg (by norm_num)]
  refine ⟨h0, ?_, ?_⟩
  · intro bps
    unfold Risk.check_slippage
    split_ifs with h
    · simp [h]
    · simp [h]
  · intro req api
    unfold TradingEngine.execute_trade_with
    rw [h0]

/-! ## C10 — non-BTCUSDT symbols are ignored -/

theorem mrStep_wrong_symbol (cfg : MeanReversion.MeanRevParams)
    (h : toUppercase cfg.symbol ≠ "BTCUSDT") (dd : Bool)
    (s : MeanReversion.MRState) (c : Candle) :
    MeanReversion.mrStep cfg dd s c = (s, []) := by
  unfold MeanReversion.mrStep
  rw [if_pos h]

theorem tfStep_wrong_symbol (cfg : TrendFollow.TrendParams)
    (h : toUppercase cfg.symbol ≠ "BTCUSDT") (dd : Bool)
    (s : TrendFollow.TFState) (c : Candle) :
    TrendFollow.tfStep cfg dd s c = (s, []) := by
  unfold TrendFollow.tfStep
  rw [if_pos h]

/-- C10: a strategy configured with any symbol whose uppercased form is
not `"BTCUSDT"` ignores every candle: the mean-reversion and
trend-follow loops leave their state untouched and emit no trade, for
every input sequence. -/
theorem non_btcusdt_symbol_ignored (mcfg : MeanReversion.MeanRevParams)
    (tcfg : TrendFollow.TrendParams)
    (hm : toUppercase mcfg.symbol ≠ "BTCUSDT")
    (ht : toUppercase tcfg.symbol ≠ "BTCUSDT")
    (dd1 dd2 : Bool) (s1 : MeanReversion.MRState) (s2 : TrendFollow.TFState)
    (cs1 cs2 : List Candle) :
    MeanReversion.runMR mcfg dd1 s1 cs1 = (s1, []) ∧
    TrendFollow.runTF tcfg dd2 s2 cs2 = (s2, []) := by
  constructor
  · unfold MeanReversion.runMR
    suffices hgen : ∀ (cs : List Candle) (acc : List TradingEngine.TradeRequest),
        cs.foldl (fun acc c =>
          let r := MeanReversion.mrStep mcfg dd1 acc.1 c
          (r.1, acc.2 ++ r.2)) (s1, acc) = (s1, acc) by
      exact hgen cs1 []
    intro cs
    induction cs with
    | nil => intro acc; rfl
    | cons c t ih =>
        intro acc
        rw [List.foldl_cons]
        simpa [mrStep_wrong_symbol mcfg hm dd1 s1 c] using ih acc
  · unfold TrendFollow.runTF
    suffices hgen : ∀ (cs : List Candle) (acc : List TradingEngine.TradeRequest),
        cs.foldl (fun acc c =>
          let r := TrendFollow.tfStep tcfg dd2 acc.1 c
          (r.1, acc.2 ++ r.2)) (s2, acc) = (s2, acc) by
      exact hgen cs2 []
    intro cs
    induction cs with
    | nil => intro acc; rfl
    | cons c t ih =>
        intro acc
        rw [List.foldl_cons]
        simpa [tfStep_wrong_symbol tcfg ht dd2 s2 c] using ih acc

/-- C10 witness: an ETHUSDT mean-reversion task and an ethusdt
trend-follow task both ignore a candle. -/
theorem non_btcusdt_symbol_ignored_witness :
    toUppercase "ETHUSDT" ≠ "BTCUSDT" ∧
    toUppercase "ethusdt" ≠ "BTCUSDT" ∧
    MeanReversion.runMR ⟨"ETHUSDT", 20, 2, 1/100⟩ true ⟨[]⟩
        [⟨0, 0, 0, 0, 0, 0, none⟩] = (⟨[]⟩, []) ∧
    TrendFollow.runTF ⟨"ethusdt", 20, 100, 55, 1/100⟩ true ⟨none, [], false⟩
        [⟨0, 0, 0, 0, 0, 0, none⟩] = (⟨none, [], false⟩, []) :=
  ⟨by decide, by decide,
   (non_btcusdt_symbol_ignored ⟨"ETHUSDT", 20, 2, 1/100⟩
      ⟨"ethusdt", 20, 100, 55, 1/100⟩ (by decide) (by decide)
      true true ⟨[]⟩ ⟨none, [], false⟩
      [⟨0, 0, 0, 0, 0, 0, none⟩] [⟨0, 0, 0, 0, 0, 0, none⟩]).1,
   (non_btcusdt_symbol_ignored ⟨"ETHUSDT", 20, 2, 1/100⟩
      ⟨"ethusdt", 20, 100, 55, 1/100⟩ (by decide) (by decide)
      true true ⟨[]⟩ ⟨none, [], false⟩
      [⟨0, 0, 0, 0, 0, 0, none⟩] [⟨0, 0, 0, 0, 0, 0, none⟩]).2⟩

/-! ## C8 — history buffer bounds -/

theorem cap_push (l : List Candle) (x : Candle) (cap : Nat)
    (h : l.length ≤ cap) :
    (if cap < (l ++ [x]).length then (l ++ [x]).tail else l ++ [x]).length ≤
      cap := by
  by_cases hc : cap < (l ++ [x]).length
  · rw [if_pos hc]
    simp only [List.length_tail, List.length_append, List.length_singleton]
    omega
  · rw [if_neg hc]
    simp only [List.length_append, List.length_singleton] at hc ⊢
    omega

theorem tfStep_daily_le (cfg : TrendFollow.TrendParams) (dd : Bool)
    (s : TrendFollow.TFState) (c : Candle)
    (h : s.daily_buf.length ≤ cfg.slow + 10) :
    (TrendFollow.tfStep cfg dd s c).1.daily_buf.length ≤ cfg.slow + 10 := by
  unfold TrendFollow.tfStep
  by_cases h1 : toUppercase cfg.symbol ≠ "BTCUSDT"
  · rw [if_pos h1]; exact h
  · rw [if_neg h1]
    by_cases h2 : hourOf c.ts = 0
    · simp only [if_pos h2]
      exact cap_push _ _ _ h
    · simp only [if_neg h2]
      exact h

theorem vcsrStep_daily_le (cfg : Vcsr.VcsrConfig) (s : Vcsr.VcsrLoopState)
    (c : Candle) (h : s.daily.length ≤ cfg.hvn_lookback_days) :
    (Vcsr.vcsrStep cfg s c).1.daily.length ≤ cfg.hvn_lookback_days := by
  unfold Vcsr.vcsrStep
  by_cases hd : ((s.daily.getLast?).map fun d => dateOf d.ts) ≠
      some (dateOf c.ts)
  · simp only [if_pos hd]
    by_cases hg : (s.hist4h ++ [c]).length < cfg.vol_ma_period + 5
    · simp only [if_pos hg]
      exact cap_push _ _ _ h
    · simp only [if_neg hg]
      exact cap_push _ _ _ h
  · simp only [if_neg hd]
    by_cases hg : (s.hist4h ++ [c]).length < cfg.vol_ma_period + 5
    · simp only [if_pos hg]
      exact h
    · simp only [if_neg hg]
      exact h

/-- C8 (amended): the trend-follow daily buffer never exceeds
`slow + 10` and the VCSR daily buffer never exceeds
`hvn_lookback_days`, but the mean-reversion candle history and the
VCSR 4-hour history have no cap and grow by one on every accepted
candle (see the counterexample theorem). -/
theorem daily_buffers_bounded (tcfg : TrendFollow.TrendParams)
    (vcfg : Vcsr.VcsrConfig) (dd : Bool) (s : TrendFollow.TFState)
    (vs : Vcsr.VcsrLoopState) (cs1 cs2 : List Candle)
    (h1 : s.daily_buf.length ≤ tcfg.slow + 10)
    (h2 : vs.daily.length ≤ vcfg.hvn_lookback_days) :
    (TrendFollow.runTF tcfg dd s cs1).1.daily_buf.length ≤ tcfg.slow + 10 ∧
    (Vcsr.runVcsr vcfg vs cs2).daily.length ≤ vcfg.hvn_lookback_days := by
  constructor
  · unfold TrendFollow.runTF
    suffices hgen : ∀ (cs : List Candle) (st : TrendFollow.TFState)
        (acc : List TradingEngine.TradeRequest),
        st.daily_buf.length ≤ tcfg.slow + 10 →
        ((cs.foldl (fun acc c =>
          let r := TrendFollow.tfStep tcfg dd acc.1 c
          (r.1, acc.2 ++ r.2)) (st, acc)).1).daily_buf.length ≤
          tcfg.slow + 10 by
      exact hgen cs1 s [] h1
    intro cs
    induction cs with
    | nil => intro st acc hst; exact hst
    | cons c t ih =>
        intro st acc hst
        rw [List.foldl_cons]
        exact ih _ _ (tfStep_daily_le tcfg dd st c hst)
  · unfold Vcsr.runVcsr
    induction cs2 generalizing vs with
    | nil => exact h2
    | cons c t ih =>
        rw [List.foldl_cons]
        exact ih _ (vcsrStep_daily_le vcfg vs c h2)

/-- C8 witness: both bounded buffers on a concrete candle from empty
initial state. -/
theorem daily_buffers_bounded_witness :
    (([] : List Candle).length ≤ 5 + 10 ∧ ([] : List Candle).length ≤ 180) ∧
    (TrendFollow.runTF ⟨"BTCUSDT", 3, 5, 2, 1⟩ true ⟨none, [], false⟩
        [⟨0, 10, 11, 9, 10, 100, none⟩]).1.daily_buf.length ≤ 5 + 10 ∧
    (Vcsr.runVcsr ⟨4, 1, 1, 7/10, 180, 7/10, 1, 1/100, 2, none, none, none, 390⟩
        ⟨[], [], []⟩ [⟨0, 10, 11, 9, 10, 100, none⟩]).daily.length ≤ 180 :=
  ⟨⟨by simp, by simp⟩,
   (daily_buffers_bounded ⟨"BTCUSDT", 3, 5, 2, 1⟩
      ⟨4, 1, 1, 7/10, 180, 7/10, 1, 1/100, 2, none, none, none, 390⟩
      true ⟨none, [], false⟩ ⟨[], [], []⟩
      [⟨0, 10, 11, 9, 10, 100, none⟩] [⟨0, 10, 11, 9, 10, 100, none⟩]
      (by simp) (by simp)).1,
   (daily_buffers_bounded ⟨"BTCUSDT", 3, 5, 2, 1⟩
      ⟨4, 1, 1, 7/10, 180, 7/10, 1, 1/100, 2, none, none, none, 390⟩
      true ⟨none, [], false⟩ ⟨[], [], []⟩
      [⟨0, 10, 11, 9, 10, 100, none⟩] [⟨0, 10, 11, 9, 10, 100, none⟩]
      (by simp) (by simp)).2⟩

theorem mrStep_hist (cfg : MeanReversion.MeanRevParams) (dd : Bool)
    (s : MeanReversion.MRState) (c : Candle)
    (h : toUppercase cfg.symbol = "BTCUSDT") :
    (MeanReversion.mrStep cfg dd s c).1 = ⟨s.hist ++ [c]⟩ := by
  unfold MeanReversion.mrStep
  rw [if_neg (by simp [h])]
  by_cases h2 : (s.hist ++ [c]).length < cfg.period
  · simp only [if_pos h2]
  · simp only [if_neg h2]

theorem runMR_hist_len (cfg : MeanReversion.MeanRevParams) (dd : Bool)
    (h : toUppercase cfg.symbol = "BTCUSDT") (cs : List Candle) :
    ∀ (s : MeanReversion.MRState) (acc : List TradingEngine.TradeRequest),
    ((cs.foldl (fun acc c =>
        let r := MeanReversion.mrStep cfg dd acc.1 c
        (r.1, acc.2 ++ r.2)) (s, acc)).1).hist.length =
      s.hist.length + cs.length := by
  induction cs with
  | nil => intro s acc; simp
  | cons c t ih =>
      intro s acc
      rw [List.foldl_cons]
      have hs := mrStep_hist cfg dd s c h
      simp only [hs]
      rw [ih _ _]
      simp only [List.length_append, List.length_cons, List.length_singleton,
        List.length_nil]
      omega

/-- C8 counterexample: the mean-reversion history has no cap — after
201 accepted candles it holds 201 entries, already past the
`Vec::with_capacity(200)` sizing hint and growing by one per candle, so
no fixed cap bounds it. -/
theorem mr_history_unbounded :
    200 < ((MeanReversion.runMR ⟨"BTCUSDT", 20, 2, 1/100⟩ true ⟨[]⟩
      (List.replicate 201 ⟨0, 0, 0, 0, 0, 0, none⟩)).1).hist.length := by
  unfold MeanReversion.runMR
  rw [runMR_hist_len ⟨"BTCUSDT", 20, 2, 1/100⟩ true (by decide)
    (List.replicate 201 ⟨0, 0, 0, 0, 0, 0, none⟩) ⟨[]⟩ []]
  simp

/-! ## C6 — mean-reversion Bollinger signal -/

theorem decide_eq_ite (candles : List Candle)
    (cfg : MeanReversion.MeanRevParams)
    (hnlt : ¬ candles.length < cfg.period) (last : Candle)
    (hlast : candles.getLast? = some last) :
    MeanReversion.decide candles cfg =
      (let slice := candles.drop (candles.length - cfg.period)
       let sma := (slice.map Candle.close).sum / (cfg.period : ℝ)
       let sd := Real.sqrt
         (((slice.map fun x => (x.close - sma) ^ 2).sum) / (cfg.period : ℝ))
       if last.close < sma - cfg.sigma * sd then .Buy
       else if sma + cfg.sigma * sd < last.close then .Sell else .Hold) := by
  unfold MeanReversion.decide MeanReversion.bollinger
  rw [if_neg hnlt, hlast]
  rfl

theorem ite_sig_spec (x L U : ℝ) (hLU : L ≤ U) :
    ((if x < L then MeanReversion.Sig.Buy
      else if U < x then .Sell else .Hold) = .Buy ↔ x < L) ∧
    ((if x < L then MeanReversion.Sig.Buy
      else if U < x then .Sell else .Hold) = .Sell ↔ U < x) ∧
    ((if x < L then MeanReversion.Sig.Buy
      else if U < x then .Sell else .Hold) = .Hold ↔ L ≤ x ∧ x ≤ U) := by
  by_cases h1 : x < L
  · rw [if_pos h1]
    refine ⟨by simp [h1], ?_, ?_⟩
    · simp only [reduceCtorEq, false_iff, not_lt]
      linarith
    · simp only [reduceCtorEq, false_iff, not_and, not_le]
      intro hc
      linarith
  · rw [if_neg h1]
    by_cases h2 : U < x
    · rw [if_pos h2]
      refine ⟨by simp [h1], by simp [h2], ?_⟩
      simp only [reduceCtorEq, false_iff, not_and, not_le]
      intro hc
      linarith
    · rw [if_neg h2]
      exact ⟨by simp [h1], by simp [h2],
        by simp [not_lt.mp h1, not_lt.mp h2]⟩

/-- C6: with a positive period and non-negative sigma (the Rust code
panics on an empty window and the defaults are period 20, sigma 2.0),
a history shorter than `period` decides Hold, and otherwise the
decision is Buy iff the latest close is strictly below `SMA - sigma*SD`,
Sell iff strictly above `SMA + sigma*SD`, and Hold otherwise, with SMA
and population SD over the last `period` closes. -/
theorem mean_reversion_signal_spec (candles : List Candle)
    (cfg : MeanReversion.MeanRevParams) (hper : 0 < cfg.period)
    (hsig : (0 : ℝ) ≤ cfg.sigma) :
    (candles.length < cfg.period → MeanReversion.decide candles cfg = .Hold) ∧
    (cfg.period ≤ candles.length →
      ∀ last, candles.getLast? = some last →
        let slice := candles.drop (candles.length - cfg.period)
        let sma := (slice.map Candle.close).sum / (cfg.period : ℝ)
        let sd := Real.sqrt
          (((slice.map fun x => (x.close - sma) ^ 2).sum) / (cfg.period : ℝ))
        (MeanReversion.decide candles cfg = .Buy ↔
          last.close < sma - cfg.sigma * sd) ∧
        (MeanReversion.decide candles cfg = .Sell ↔
          sma + cfg.sigma * sd < last.close) ∧
        (MeanReversion.decide candles cfg = .Hold ↔
          sma - cfg.sigma * sd ≤ last.close ∧
            last.close ≤ sma + cfg.sigma * sd)) := by
  constructor
  · intro hlen
    have hb : MeanReversion.bollinger candles cfg.period cfg.sigma = none := by
      unfold MeanReversion.bollinger
      rw [if_pos hlen]
    simp [MeanReversion.decide, hb]
  · intro hlen last hlast
    have hnlt : ¬ candles.length < cfg.period := not_lt.mpr hlen
    rw [decide_eq_ite candles cfg hnlt last hlast]
    exact ite_sig_spec last.close _ _
      (by nlinarith [mul_nonneg hsig (Real.sqrt_nonneg
        ((((candles.drop (candles.length - cfg.period)).map fun x =>
          (x.close - ((candles.drop (candles.length - cfg.period)).map
            Candle.close).sum / (cfg.period : ℝ)) ^ 2).sum) /
          (cfg.period : ℝ)))])

/-- C6 witness: 19 closes of 10.0 then one of 5.0 with period 20,
sigma 2.0 decides Buy. -/
theorem mean_reversion_signal_spec_witness :
    0 < (20 : Nat) ∧ (0 : ℝ) ≤ 2 ∧
    MeanReversion.decide
        (List.replicate 19 ⟨0, 10, 10, 10, 10, 0, none⟩ ++
          [⟨0, 5, 5, 5, 5, 0, none⟩])
        ⟨"BTCUSDT", 20, 2, 1/100⟩ = .Buy := by
  refine ⟨by norm_num, by norm_num, ?_⟩
  have h := (mean_reversion_signal_spec
      (List.replicate 19 ⟨0, 10, 10, 10, 10, 0, none⟩ ++
        [⟨0, 5, 5, 5, 5, 0, none⟩])
      ⟨"BTCUSDT", 20, 2, 1/100⟩ (by norm_num) (by norm_num)).2
      (by simp) ⟨0, 5, 5, 5, 5, 0, none⟩ (by simp)
  refine h.1.mpr ?_
  simp only [List.length_append, List.length_replicate, List.length_singleton,
    List.map_append, List.map_replicate, List.map_singleton,
    List.sum_append, List.sum_replicate, List.sum_singleton, smul_eq_mul]
  norm_num
  rw [show Real.sqrt 16 = 4 by
    rw [show (16:ℝ) = 4 ^ 2 by norm_num, Real.sqrt_sq (by norm_num : (0:ℝ) ≤ 4)]]
  nlinarith [Real.sq_sqrt (show (0:ℝ) ≤ 19 by norm_num),
    Real.sqrt_nonneg (19:ℝ)]

/-! ## C7 — VCSR session gate -/

/-- C7 counterexample: every candle of this history carries UTC hour 5
(ts 18000), outside both spec sessions (Asia 23-2, NY 12-14), and the
session filter is present (`[AsiaOpen]`); yet `generate_signal` emits a
signal, because `map_session`'s catch-all arm maps hour 5 (and every
other hour outside 12-14) to `AsiaOpen`.  The claim says a candle at
such an hour is rejected and `generate_signal` returns none. -/
theorem vcsr_session_catchall_emits_at_hour5 :
    Vcsr.generate_signal Vcsr.hour5Strategy Vcsr.hour5Hist none 100000 =
      some (⟨10, 8, 14, 500⟩ : Vcsr.TradeSignal) := by
  have hatr : Vcsr.average_true_range
      [(⟨18000, 10, 11, 9, 10, 100, none⟩ : Candle),
       ⟨18000, 10, 11, 9, 10, 100, none⟩, ⟨18000, 10, 11, 9, 10, 100, none⟩,
       ⟨18000, 10, 11, 9, 10, 100, none⟩, ⟨18000, 10, 11, 9, 10, 100, none⟩,
       ⟨18000, 10, 11, 9, 10, 100, none⟩, ⟨18000, 10, 11, 9, 10, 100, none⟩,
       ⟨18000, 10, 11, 9, 10, 100, none⟩, ⟨18000, 10, 11, 9, 10, 100, none⟩,
       ⟨18000, 10, 11, 9, 10, 100, none⟩, ⟨18000, 10, 11, 9, 10, 100, none⟩,
       ⟨18000, 10, 11, 9, 10, 100, none⟩, ⟨18000, 10, 11, 9, 10, 100, none⟩,
       ⟨18000, 10, 11, 9, 10, 100, none⟩, ⟨18000, 10, 11, 9, 10, 100, none⟩,
       ⟨18000, 10, 11, 9, 10, 1000, none⟩] 14 = some 2 := by
    unfold Vcsr.average_true_range
    norm_num [List.zip, List.zipWith, List.reverse, List.take, List.tail,
      List.concat]
  unfold Vcsr.generate_signal Vcsr.hour5Strategy Vcsr.hour5Hist
    Vcsr.hour5Base Vcsr.hour5Spike Vcsr.hour5Cfg
  norm_num [List.getLast?, List.getLast, List.find?, Vcsr.map_session, hourOf,
    Vcsr.sessionOk, Vcsr.vwapOk, Vcsr.obOk]
  refine ⟨by decide, ?_, Or.inl ?_, ?_⟩
  · unfold Vcsr.volume_spike Vcsr.sampleStdDev
    norm_num [List.getLast?, List.getLast]
    positivity
  · unfold Vcsr.is_reversal_candle
    norm_num
  · rw [hatr]
    norm_num

/-- C7 (amended): when the session filter is present and the mapped
session of the latest candle's UTC hour is not in the allowed list,
`generate_signal` returns none; but `map_session` maps hours 12-14 to
the NY session and EVERY other hour — not only 23-2 — to the Asia
session (the `_ => AsiaOpen` catch-all), so a candle at an hour outside
both spec ranges is rejected only when Asia is absent from the allowed
list; with Asia allowed, no hour is rejected by the session gate (the
counterexample theorem shows a signal emitted at UTC hour 5). -/
theorem vcsr_session_gate (s : Vcsr.VcsrStrategy) (hist : List Candle)
    (ob : Option OrderBookSnapshot) (equity : ℝ)
    (sessions : List Vcsr.TradingSession) (latest : Candle)
    (hf : s.cfg.session_filter = some sessions)
    (hl : hist.getLast? = some latest)
    (hrej : sessions.contains (Vcsr.map_session latest.ts) = false) :
    Vcsr.generate_signal s hist ob equity = none ∧
    (∀ ts : Nat,
      (12 ≤ hourOf ts ∧ hourOf ts ≤ 14 → Vcsr.map_session ts = .NyOpen) ∧
      (¬ (12 ≤ hourOf ts ∧ hourOf ts ≤ 14) →
        Vcsr.map_session ts = .AsiaOpen)) := by
  constructor
  · have hsess : Vcsr.sessionOk s.cfg latest.ts = false := by
      unfold Vcsr.sessionOk
      rw [hf]
      exact hrej
    unfold Vcsr.generate_signal
    rw [hl]
    simp only []
    split
    · rfl
    · simp [hsess]
  · intro ts
    constructor
    · intro hny
      unfold Vcsr.map_session
      rw [if_neg (by omega), if_pos hny]
    · intro hnot
      unfold Vcsr.map_session
      by_cases h1 : hourOf ts ≤ 2 ∨ hourOf ts = 23
      · rw [if_pos h1]
      · rw [if_neg h1, if_neg hnot]

/-- C7 witness: a strategy whose filter is `[NyOpen]` rejects the same
hour-5 history — hour 5 maps to Asia, which is not allowed. -/
theorem vcsr_session_gate_witness :
    (Vcsr.VcsrStrategy.mk
        ⟨4, 0, 0, 0, 180, 7/10, 1, 1/100, 2, none, none,
          some [.NyOpen], 390⟩ [⟨10, 1/50⟩]).cfg.session_filter =
      some [Vcsr.TradingSession.NyOpen] ∧
    Vcsr.hour5Hist.getLast? = some Vcsr.hour5Spike ∧
    ([Vcsr.TradingSession.NyOpen].contains
      (Vcsr.map_session Vcsr.hour5Spike.ts)) = false ∧
    Vcsr.generate_signal
        (Vcsr.VcsrStrategy.mk
          ⟨4, 0, 0, 0, 180, 7/10, 1, 1/100, 2, none, none,
            some [.NyOpen], 390⟩ [⟨10, 1/50⟩])
        Vcsr.hour5Hist none 100000 = none :=
  ⟨rfl, rfl, by decide,
   (vcsr_session_gate _ Vcsr.hour5Hist none 100000 [.NyOpen]
      Vcsr.hour5Spike rfl rfl (by decide)).1⟩

/-! ## C4 — envelope crypto -/

theorem flipBit_cons_succ (a : Bool) (t : List Bool) (i : Nat) :
    Crypto.flipBit (i + 1) (a :: t) = a :: Crypto.flipBit i t := rfl

theorem flipBit_cons_zero (a : Bool) (t : List Bool) :
    Crypto.flipBit 0 (a :: t) = (!a) :: t := rfl

theorem flipBit_ne (l : List Bool) (i : Nat) (h : i < l.length) :
    Crypto.flipBit i l ≠ l := by
  induction l generalizing i with
  | nil => simp at h
  | cons a t ih =>
      cases i with
      | zero =>
          rw [flipBit_cons_zero]
          intro heq
          cases a <;> simp at heq
      | succ j =>
          rw [flipBit_cons_succ]
          intro heq
          exact ih j (by simpa using h) (by simpa using heq)

theorem xorAll_cons (a : Bool) (t : List Bool) :
    Crypto.xorAll (a :: t) = xor a (Crypto.xorAll t) := rfl

theorem xorAll_flip (l : List Bool) (i : Nat) (h : i < l.length) :
    Crypto.xorAll (Crypto.flipBit i l) = !(Crypto.xorAll l) := by
  induction l generalizing i with
  | nil => simp at h
  | cons a t ih =>
      cases i with
      | zero =>
          rw [flipBit_cons_zero, xorAll_cons, xorAll_cons]
          cases a <;> cases Crypto.xorAll t <;> rfl
      | succ j =>
          rw [flipBit_cons_succ, xorAll_cons, xorAll_cons,
            ih j (by simpa using h)]
          cases a <;> cases Crypto.xorAll t <;> rfl
theorem flipBit_append_left (l : List Bool) (b : Bool) (i : Nat)
    (h : i < l.length) :
    Crypto.flipBit i (l ++ [b]) = Crypto.flipBit i l ++ [b] := by
  induction l generalizing i with
  | nil => simp at h
  | cons a t ih =>
      cases i with
      | zero => rfl
      | succ j =>
          simp only [List.cons_append, flipBit_cons_succ]
          rw [ih j (by simpa using h)]

theorem flipBit_append_last (l : List Bool) (b : Bool) :
    Crypto.flipBit l.length (l ++ [b]) = l ++ [!b] := by
  induction l with
  | nil => rfl
  | cons a t ih =>
      simp only [List.cons_append, List.length_cons, flipBit_cons_succ]
      rw [ih]

theorem parseBits_bitsEnc (n r : List Bool) :
    Crypto.parseBits (Crypto.bitsEnc n ++ r) = some (n, r) := by
  induction n with
  | nil => rfl
  | cons b t ih =>
      have hexp : Crypto.bitsEnc (b :: t) ++ r =
          true :: b :: (Crypto.bitsEnc t ++ r) := by
        simp [Crypto.bitsEnc]
      rw [hexp]
      simp only [Crypto.parseBits, ih, Option.map_some']

theorem parseUnary_encode (m : Nat) (r : List Bool) :
    Crypto.parseUnary (List.replicate m true ++ false :: r) = some (m, r) := by
  induction m with
  | zero => rfl
  | succ j ih =>
      simp only [List.replicate_succ, List.cons_append, List.append_eq,
        Crypto.parseUnary, ih, Option.map_some']

theorem bytesEnc_cons (m : Nat) (t : List Nat) :
    Crypto.bytesEnc (m :: t) =
      List.replicate m true ++ false :: Crypto.bytesEnc t := by
  simp [Crypto.bytesEnc]

theorem parseBytes_step (f : Nat) (c : Bool) (cs : List Bool) :
    Crypto.parseBytes (f + 1) (c :: cs) =
      (Crypto.parseUnary (c :: cs)).bind fun x =>
        (Crypto.parseBytes f x.2).map fun p => x.1 :: p := rfl

theorem parseBytes_bytesEnc (p : List Nat) :
    ∀ f, (Crypto.bytesEnc p).length ≤ f →
    Crypto.parseBytes f (Crypto.bytesEnc p) = some p := by
  induction p with
  | nil =>
      intro f h
      cases f <;> rfl
  | cons m t ih =>
      intro f h
      rw [bytesEnc_cons] at h ⊢
      cases f with
      | zero =>
          exfalso
          simp [List.length_append, List.length_replicate] at h
      | succ g =>
          have hne : List.replicate m true ++ false :: Crypto.bytesEnc t =
              (List.replicate m true ++ false :: Crypto.bytesEnc t) := rfl
          cases m with
          | zero =>
              simp only [List.replicate_zero, List.nil_append]
              rw [parseBytes_step]
              rw [show Crypto.parseUnary (false :: Crypto.bytesEnc t) =
                some (0, Crypto.bytesEnc t) from rfl]
              simp only [Option.some_bind]
              rw [ih g (by
                simp [List.length_append, List.length_replicate] at h
                omega)]
              rfl
          | succ mm =>
              simp only [List.replicate_succ, List.cons_append]
              rw [parseBytes_step]
              rw [show Crypto.parseUnary (true :: (List.replicate mm true ++
                  false :: Crypto.bytesEnc t)) =
                (Crypto.parseUnary (List.replicate mm true ++
                  false :: Crypto.bytesEnc t)).map fun x =>
                    (x.1 + 1, x.2) from rfl]
              rw [parseUnary_encode]
              simp only [Option.map_some', Option.some_bind]
              rw [ih g (by
                simp [List.length_append, List.length_replicate] at h
                omega)]
              rfl
theorem beq_not_self_false (b : Bool) : (b == !b) = false := by
  cases b <;> rfl

theorem not_beq_self_false (b : Bool) : ((!b) == b) = false := by
  cases b <;> rfl

theorem toyAe_correct (k : Nat) (n : List Bool) (p : List Nat) :
    Crypto.toyAe.dec k n (Crypto.toyAe.enc k n p) = some p := by
  simp only [Crypto.toyAe]
  simp only [List.getLast?_concat, List.dropLast_concat, beq_self_eq_true,
    if_true]
  rw [parseBits_bitsEnc]
  simp only [Option.some_bind, beq_self_eq_true, if_true]
  exact parseBytes_bytesEnc p _ le_rfl

theorem toyAe_tamper_cipher (k : Nat) (n : List Bool) (p : List Nat) (i : Nat)
    (h : i < (Crypto.toyAe.enc k n p).length) :
    Crypto.toyAe.dec k n (Crypto.flipBit i (Crypto.toyAe.enc k n p)) = none := by
  have hlen : (Crypto.toyAe.enc k n p).length =
      (Crypto.bitsEnc n ++ Crypto.bytesEnc p).length + 1 := by
    simp [Crypto.toyAe]
    omega
  by_cases hi : i < (Crypto.bitsEnc n ++ Crypto.bytesEnc p).length
  · have hflip : Crypto.flipBit i (Crypto.toyAe.enc k n p) =
        Crypto.flipBit i (Crypto.bitsEnc n ++ Crypto.bytesEnc p) ++
          [Crypto.xorAll (Crypto.bitsEnc n ++ Crypto.bytesEnc p)] :=
      flipBit_append_left _ _ i hi
    rw [hflip]
    simp only [Crypto.toyAe]
    simp only [List.getLast?_concat, List.dropLast_concat]
    rw [xorAll_flip _ i hi, beq_not_self_false]
    rfl
  · have hieq : i = (Crypto.bitsEnc n ++ Crypto.bytesEnc p).length := by omega
    subst hieq
    have hflip : Crypto.flipBit
        (Crypto.bitsEnc n ++ Crypto.bytesEnc p).length
        (Crypto.toyAe.enc k n p) =
        (Crypto.bitsEnc n ++ Crypto.bytesEnc p) ++
          [!(Crypto.xorAll (Crypto.bitsEnc n ++ Crypto.bytesEnc p))] :=
      flipBit_append_last _ _
    rw [hflip]
    simp only [Crypto.toyAe]
    simp only [List.getLast?_concat, List.dropLast_concat]
    rw [not_beq_self_false]
    rfl

theorem toyAe_tamper_nonce (k : Nat) (n n2 : List Bool) (p : List Nat)
    (h : n2 ≠ n) :
    Crypto.toyAe.dec k n2 (Crypto.toyAe.enc k n p) = none := by
  simp only [Crypto.toyAe]
  simp only [List.getLast?_concat, List.dropLast_concat, beq_self_eq_true,
    if_true]
  rw [parseBits_bitsEnc]
  simp only [Option.some_bind]
  rw [show (n == n2) = false from
    beq_eq_false_iff_ne.mpr fun he => h he.symm]
  rfl

theorem all_id_replicate (d : Nat) :
    ((List.replicate d true).all fun b => b) = true := by
  induction d with
  | zero => rfl
  | succ e ih =>
      simp only [List.replicate_succ, List.all_cons, Bool.true_and]
      exact ih

theorem all_id_flip_replicate (d i : Nat) (h : i < d) :
    ((Crypto.flipBit i (List.replicate d true)).all fun b => b) = false := by
  induction d generalizing i with
  | zero => omega
  | succ e ih =>
      cases i with
      | zero => simp [List.replicate_succ, flipBit_cons_zero]
      | succ j =>
          simp only [List.replicate_succ, flipBit_cons_succ, List.all_cons,
            Bool.true_and]
          exact ih j (by omega)

theorem toyBox_correct (r dk : Nat) :
    Crypto.toyBox.unwrap (Crypto.toyBox.wrap r dk) = some dk := by
  simp only [Crypto.toyBox]
  simp only [List.getLast?_concat, List.dropLast_concat]
  rw [all_id_replicate]
  simp [List.length_replicate]

theorem toyBox_tamper (r dk i : Nat)
    (h : i < (Crypto.toyBox.wrap r dk).length) :
    Crypto.toyBox.unwrap (Crypto.flipBit i (Crypto.toyBox.wrap r dk)) =
      none := by
  have hlen : (Crypto.toyBox.wrap r dk).length = dk + 1 := by
    simp [Crypto.toyBox]
  by_cases hi : i < dk
  · have hflip : Crypto.flipBit i (Crypto.toyBox.wrap r dk) =
        Crypto.flipBit i (List.replicate dk true) ++ [decide (dk % 2 = 1)] :=
      flipBit_append_left _ _ i (by simpa using hi)
    rw [hflip]
    simp only [Crypto.toyBox]
    simp only [List.getLast?_concat, List.dropLast_concat]
    rw [all_id_flip_replicate dk i hi]
    rfl
  · have hieq : i = dk := by omega
    subst hieq
    have hl2 := flipBit_append_last (List.replicate i true)
      (decide (i % 2 = 1))
    rw [List.length_replicate] at hl2
    have hflip : Crypto.flipBit i (Crypto.toyBox.wrap r i) =
        List.replicate i true ++ [!(decide (i % 2 = 1))] := hl2
    rw [hflip]
    simp only [Crypto.toyBox]
    simp only [List.getLast?_concat, List.dropLast_concat,
      List.length_replicate]
    rw [all_id_replicate, not_beq_self_false]
    rfl
/-- C4 (amended): in the symbolic model of the primitives — any AEAD and
sealed-box implementations in which decryption inverts encryption and
any modified wrapped key, nonce or ciphertext is rejected, the
contracts AES-256-GCM and libsodium sealed boxes provide — the
envelope construction satisfies: for every plaintext that is valid
UTF-8, `open` of `seal`'s triple returns exactly that plaintext; and
flipping any single bit of the wrapped key, the nonce, or the
ciphertext makes `open` return an error.  For a plaintext that is NOT
valid UTF-8, the round trip fails (see the counterexample theorem):
`open` converts to a UTF-8 string, so the claim's unrestricted
round-trip does not hold. -/
theorem envelope_seal_open {Key : Type} (box : Crypto.SealedBoxScheme Key)
    (ae : Crypto.AeadScheme Key)
    (hbc : ∀ r k, box.unwrap (box.wrap r k) = some k)
    (hbt : ∀ r k i, i < (box.wrap r k).length →
      box.unwrap (Crypto.flipBit i (box.wrap r k)) = none)
    (hac : ∀ k n p, ae.dec k n (ae.enc k n p) = some p)
    (hatc : ∀ k n p i, i < (ae.enc k n p).length →
      ae.dec k n (Crypto.flipBit i (ae.enc k n p)) = none)
    (hatn : ∀ k n n2 p, n2 ≠ n → ae.dec k n2 (ae.enc k n p) = none)
    (r : Nat) (dk : Key) (nonce : List Bool) (p : List Nat) :
    (Crypto.utf8Valid p = true →
      Crypto.open' box ae (Crypto.seal' box ae r dk nonce p).1
        (Crypto.seal' box ae r dk nonce p).2.1
        (Crypto.seal' box ae r dk nonce p).2.2 = .ok p) ∧
    (∀ i, i < (box.wrap r dk).length →
      ∃ e, Crypto.open' box ae (Crypto.flipBit i (box.wrap r dk)) nonce
        (ae.enc dk nonce p) = .error e) ∧
    (∀ i, i < nonce.length →
      ∃ e, Crypto.open' box ae (box.wrap r dk) (Crypto.flipBit i nonce)
        (ae.enc dk nonce p) = .error e) ∧
    (∀ i, i < (ae.enc dk nonce p).length →
      ∃ e, Crypto.open' box ae (box.wrap r dk) nonce
        (Crypto.flipBit i (ae.enc dk nonce p)) = .error e) := by
  refine ⟨?_, ?_, ?_, ?_⟩
  · intro hutf
    unfold Crypto.seal' Crypto.open'
    rw [hbc]
    simp only []
    rw [hac]
    simp only []
    rw [if_pos hutf]
  · intro i hi
    refine ⟨"sealed-box unwrap failed", ?_⟩
    unfold Crypto.open'
    rw [hbt r dk i hi]

  · intro i hi
    refine ⟨"AES-GCM decrypt failed", ?_⟩
    unfold Crypto.open'
    rw [hbc]
    simp only []
    rw [hatn dk nonce (Crypto.flipBit i nonce) p (flipBit_ne nonce i hi)]
  · intro i hi
    refine ⟨"AES-GCM decrypt failed", ?_⟩
    unfold Crypto.open'
    rw [hbc]
    simp only []
    rw [hatc dk nonce p i hi]

/-- C4 witness: the amended statement exercised on the executable
witness schemes with data key 2, nonce `[true]` and plaintext `"A"`
(byte 65), flipping bit 0 of each component. -/
theorem envelope_seal_open_witness :
    Crypto.utf8Valid [65] = true ∧
    Crypto.open' Crypto.toyBox Crypto.toyAe
        (Crypto.seal' Crypto.toyBox Crypto.toyAe 0 2 [true] [65]).1
        (Crypto.seal' Crypto.toyBox Crypto.toyAe 0 2 [true] [65]).2.1
        (Crypto.seal' Crypto.toyBox Crypto.toyAe 0 2 [true] [65]).2.2 =
      .ok [65] ∧
    (∃ e, Crypto.open' Crypto.toyBox Crypto.toyAe
        (Crypto.flipBit 0 (Crypto.toyBox.wrap 0 2)) [true]
        (Crypto.toyAe.enc 2 [true] [65]) = .error e) ∧
    (∃ e, Crypto.open' Crypto.toyBox Crypto.toyAe
        (Crypto.toyBox.wrap 0 2) (Crypto.flipBit 0 [true])
        (Crypto.toyAe.enc 2 [true] [65]) = .error e) ∧
    (∃ e, Crypto.open' Crypto.toyBox Crypto.toyAe
        (Crypto.toyBox.wrap 0 2) [true]
        (Crypto.flipBit 0 (Crypto.toyAe.enc 2 [true] [65])) = .error e) := by
  have H := envelope_seal_open Crypto.toyBox Crypto.toyAe
    toyBox_correct toyBox_tamper toyAe_correct toyAe_tamper_cipher
    toyAe_tamper_nonce 0 2 [true] [65]
  exact ⟨by decide, H.1 (by decide), H.2.1 0 (by decide),
    H.2.2.1 0 (by decide), H.2.2.2 0 (by decide)⟩

/-- C4 counterexample: for the plaintext byte `0xFF` — not valid UTF-8 —
`open` of `seal`'s untampered triple returns an error rather than the
plaintext: `EnvelopeCrypto::open` ends in `String::from_utf8`, so the
claim's "for every plaintext p, open(seal(p)) yields p" fails for any
non-UTF-8 byte string even with perfect primitives (witness schemes
shown here). -/
theorem envelope_roundtrip_fails_on_non_utf8 :
    Crypto.open' Crypto.toyBox Crypto.toyAe
        (Crypto.seal' Crypto.toyBox Crypto.toyAe 0 2 [true] [255]).1
        (Crypto.seal' Crypto.toyBox Crypto.toyAe 0 2 [true] [255]).2.1
        (Crypto.seal' Crypto.toyBox Crypto.toyAe 0 2 [true] [255]).2.2 =
      .error "invalid utf-8" := rfl

/-- C3 witness: the amended behaviour on the concrete `"quantum_leap"`
row — warn action, handle present, second pass a no-op. -/
theorem reconcile_unknown_kind_skipped_witness :
    Scheduler.spawnedAction
        (⟨7, 1, "blowfin", "BTCUSDT", "quantum_leap"⟩ : Scheduler.StrategyRow) =
      .warnUnknown "quantum_leap" ∧
    7 ∈ Scheduler.keys (Scheduler.reconcile []
        [(⟨7, 1, "blowfin", "BTCUSDT", "quantum_leap"⟩ : Scheduler.StrategyRow)]) ∧
    Scheduler.reconcile
        (Scheduler.reconcile []
          [(⟨7, 1, "blowfin", "BTCUSDT", "quantum_leap"⟩ : Scheduler.StrategyRow)])
        [(⟨7, 1, "blowfin", "BTCUSDT", "quantum_leap"⟩ : Scheduler.StrategyRow)] =
      Scheduler.reconcile []
        [(⟨7, 1, "blowfin", "BTCUSDT", "quantum_leap"⟩ : Scheduler.StrategyRow)] :=
  reconcile_unknown_kind_skipped [] _ _ (by decide) (by decide)

end RustRaptor
